import Mathlib

/-!
Verification of the PaintBoard brush core (src-tauri/src/brush and src-tauri/src/input)
against its natural-language specification.

The Rust code is shallowly embedded: `f32` values are modelled as real numbers
(exact arithmetic), `i32` as `ℤ`, `u32`/`usize`/`u8` as `ℕ`.  `f32 as u8` casts of
in-range values are modelled by flooring, `f32 as i32` by truncation toward zero.
Slices become lists; `Vec::get`/`get_mut` out-of-range accesses become `List.getD`
reads and `List.set` no-ops, mirroring the silent no-op behavior of the source.
-/

namespace PaintBoard

/-! ### Rect (src/brush/stroke_buffer.rs, lines 9-64)

Integer bounding box used for dirty-region tracking.  Fields are `i32` in the
source; they are modelled as `ℤ` together with an explicit in-range predicate. -/

/-- Model of `i32::MAX`. -/
def i32Max : ℤ := 2 ^ 31 - 1

/-- Model of `i32::MIN`. -/
def i32Min : ℤ := -(2 ^ 31)

/-- Model of `struct Rect { left, top, right, bottom : i32 }`. -/
structure Rect where
  left : ℤ
  top : ℤ
  right : ℤ
  bottom : ℤ
deriving DecidableEq, Repr

/-- Model of `Rect::new`. -/
def Rect.new (left top right bottom : ℤ) : Rect :=
  ⟨left, top, right, bottom⟩

/-- Model of `Rect::empty`: opposing extreme sentinels. -/
def Rect.empty : Rect :=
  ⟨i32Max, i32Max, i32Min, i32Min⟩

/-- Model of `Rect::is_empty`: `left >= right || top >= bottom`. -/
def Rect.is_empty (r : Rect) : Bool :=
  decide (r.left ≥ r.right ∨ r.top ≥ r.bottom)

/-- Model of `Rect::expand` (the source mutates `self`; we return the new value). -/
def Rect.expand (r : Rect) (x y radius : ℤ) : Rect :=
  ⟨min r.left (x - radius), min r.top (y - radius),
   max r.right (x + radius + 1), max r.bottom (y + radius + 1)⟩

/-- Model of `Rect::union` (the source mutates `self`; we return the new value). -/
def Rect.union (r other : Rect) : Rect :=
  if other.is_empty then r
  else
    ⟨min r.left other.left, min r.top other.top,
     max r.right other.right, max r.bottom other.bottom⟩

/-- Model of `Rect::clamp_to`. -/
def Rect.clamp_to (r : Rect) (width height : ℤ) : Rect :=
  ⟨max r.left 0, max r.top 0, min r.right width, min r.bottom height⟩

/-- All four fields fit in `i32`, as they do in the source type. -/
def Rect.InRange (r : Rect) : Prop :=
  i32Min ≤ r.left ∧ r.left ≤ i32Max ∧ i32Min ≤ r.top ∧ r.top ≤ i32Max ∧
    i32Min ≤ r.right ∧ r.right ≤ i32Max ∧ i32Min ≤ r.bottom ∧ r.bottom ≤ i32Max

/-- A rect is canonical when it is in `i32` range and is either the canonical
empty sentinel `Rect.empty` or genuinely non-empty.  Degenerate values such as
`⟨5,5,3,3⟩` (empty by `is_empty` but carrying stray coordinates) are excluded. -/
def Rect.Canonical (r : Rect) : Prop :=
  r.InRange ∧ (r = Rect.empty ∨ r.is_empty = false)

theorem Rect.empty_is_empty : Rect.empty.is_empty = true := by
  decide

theorem Rect.union_empty_right (a : Rect) : a.union Rect.empty = a := by
  simp [Rect.union, Rect.empty_is_empty]

theorem Rect.canonical_is_empty {a : Rect} (ha : a.Canonical) (h : a.is_empty = true) :
    a = Rect.empty := by
  rcases ha.2 with h' | h'
  · exact h'
  · rw [h'] at h; cases h

theorem Rect.union_empty_left {a : Rect} (ha : a.Canonical) : Rect.empty.union a = a := by
  by_cases h : a.is_empty = true
  · rw [Rect.canonical_is_empty ha h, Rect.union_empty_right]
  · rw [Bool.not_eq_true] at h
    obtain ⟨h1, h2, h3, h4, h5, h6, h7, h8⟩ := ha.1
    simp only [Rect.union, h, Bool.false_eq_true, if_false, Rect.empty]
    cases a
    simp only [Rect.mk.injEq]
    constructor
    · exact min_eq_right h2
    constructor
    · exact min_eq_right h4
    constructor
    · exact max_eq_right h5
    · exact max_eq_right h7

theorem Rect.union_nonempty {a b : Rect} (ha : a.is_empty = false) (hb : b.is_empty = false) :
    a.union b =
      ⟨min a.left b.left, min a.top b.top, max a.right b.right, max a.bottom b.bottom⟩ := by
  simp [Rect.union, hb]

theorem Rect.is_empty_false_iff (a : Rect) :
    a.is_empty = false ↔ a.left < a.right ∧ a.top < a.bottom := by
  simp only [Rect.is_empty, decide_eq_false_iff_not, not_or, not_le]

theorem Rect.union_nonempty_is_empty {a b : Rect} (ha : a.is_empty = false)
    (hb : b.is_empty = false) : (a.union b).is_empty = false := by
  rw [Rect.union_nonempty ha hb]
  rw [Rect.is_empty_false_iff] at ha hb ⊢
  constructor
  · exact lt_of_lt_of_le ((min_le_left _ _).trans_lt ha.1) (le_max_left _ _)
  · exact lt_of_lt_of_le ((min_le_left _ _).trans_lt ha.2) (le_max_left _ _)

theorem Rect.union_canonical {a b : Rect} (ha : a.Canonical) (hb : b.Canonical) :
    (a.union b).Canonical := by
  by_cases h2 : b.is_empty = true
  · rw [Rect.canonical_is_empty hb h2, Rect.union_empty_right]; exact ha
  by_cases h1 : a.is_empty = true
  · rw [Rect.canonical_is_empty ha h1, Rect.union_empty_left hb]; exact hb
  rw [Bool.not_eq_true] at h1 h2
  constructor
  · rw [Rect.union_nonempty h1 h2]
    obtain ⟨a1, a2, a3, a4, a5, a6, a7, a8⟩ := ha.1
    obtain ⟨b1, b2, b3, b4, b5, b6, b7, b8⟩ := hb.1
    exact ⟨le_min a1 b1, (min_le_left _ _).trans a2, le_min a3 b3,
      (min_le_left _ _).trans a4, a5.trans (le_max_left _ _), max_le a6 b6,
      a7.trans (le_max_left _ _), max_le a8 b8⟩
  · right; exact Rect.union_nonempty_is_empty h1 h2

theorem Rect.union_comm {a b : Rect} (ha : a.Canonical) (hb : b.Canonical) :
    a.union b = b.union a := by
  by_cases h1 : a.is_empty = true
  · rw [Rect.canonical_is_empty ha h1, Rect.union_empty_right, Rect.union_empty_left hb]
  by_cases h2 : b.is_empty = true
  · rw [Rect.canonical_is_empty hb h2, Rect.union_empty_right, Rect.union_empty_left ha]
  rw [Bool.not_eq_true] at h1 h2
  rw [Rect.union_nonempty h1 h2, Rect.union_nonempty h2 h1]
  simp only [Rect.mk.injEq]
  exact ⟨min_comm _ _, min_comm _ _, max_comm _ _, max_comm _ _⟩

theorem Rect.union_assoc {a b c : Rect} (ha : a.Canonical) (hb : b.Canonical)
    (hc : c.Canonical) : (a.union b).union c = a.union (b.union c) := by
  by_cases h1 : a.is_empty = true
  · rw [Rect.canonical_is_empty ha h1, Rect.union_empty_left hb,
      Rect.union_empty_left (Rect.union_canonical hb hc)]
  by_cases h2 : b.is_empty = true
  · rw [Rect.canonical_is_empty hb h2, Rect.union_empty_right, Rect.union_empty_left hc]
  by_cases h3 : c.is_empty = true
  · rw [Rect.canonical_is_empty hc h3, Rect.union_empty_right, Rect.union_empty_right]
  rw [Bool.not_eq_true] at h1 h2 h3
  have hab : (a.union b).is_empty = false := Rect.union_nonempty_is_empty h1 h2
  have hbc : (b.union c).is_empty = false := Rect.union_nonempty_is_empty h2 h3
  rw [Rect.union_nonempty hab h3, Rect.union_nonempty h1 hbc,
    Rect.union_nonempty h1 h2, Rect.union_nonempty h2 h3]
  dsimp only
  simp only [Rect.mk.injEq]
  refine ⟨?_, ?_, ?_, ?_⟩ <;> omega

/-- C8 counterexample: `union` is not commutative on raw `Rect` values.  The
degenerate rect `⟨5,5,3,3⟩` is empty by `is_empty`, yet unioning it on the left
mixes its stray coordinates into the result, while unioning it on the right is
a no-op. -/
theorem rect_union_not_comm :
    (Rect.new 5 5 3 3).union (Rect.new 10 10 20 20) ≠
      (Rect.new 10 10 20 20).union (Rect.new 5 5 3 3) := by
  decide

/-- C8 (amended): on canonical rects — rects in `i32` range that are either the
sentinel `Rect.empty` or non-empty — `Rect.union` is a commutative monoid with
`Rect.empty` as identity: `union a empty = a`, `union empty a = a`,
`union a b = union b a`, and `union (union a b) c = union a (union b c)`. -/
theorem rect_union_comm_monoid (a b c : Rect) (ha : a.Canonical) (hb : b.Canonical)
    (hc : c.Canonical) :
    a.union Rect.empty = a ∧ Rect.empty.union a = a ∧ a.union b = b.union a ∧
      (a.union b).union c = a.union (b.union c) :=
  ⟨Rect.union_empty_right a, Rect.union_empty_left ha, Rect.union_comm ha hb,
    Rect.union_assoc ha hb hc⟩

/-- C8 witness: the amended monoid laws instantiated at concrete canonical rects. -/
theorem rect_union_comm_monoid_witness :
    (Rect.new 0 0 4 4).union Rect.empty = Rect.new 0 0 4 4 ∧
      Rect.empty.union (Rect.new 0 0 4 4) = Rect.new 0 0 4 4 ∧
      (Rect.new 0 0 4 4).union (Rect.new 2 1 9 7) =
        (Rect.new 2 1 9 7).union (Rect.new 0 0 4 4) ∧
      ((Rect.new 0 0 4 4).union (Rect.new 2 1 9 7)).union Rect.empty =
        (Rect.new 0 0 4 4).union ((Rect.new 2 1 9 7).union Rect.empty) :=
  rect_union_comm_monoid (Rect.new 0 0 4 4) (Rect.new 2 1 9 7) Rect.empty
    (by constructor; · exact ⟨by decide, by decide, by decide, by decide, by decide,
          by decide, by decide, by decide⟩
        · right; decide)
    (by constructor; · exact ⟨by decide, by decide, by decide, by decide, by decide,
          by decide, by decide, by decide⟩
        · right; decide)
    (by constructor; · exact ⟨by decide, by decide, by decide, by decide, by decide,
          by decide, by decide, by decide⟩
        · left; rfl)

/-! ### Pixel and blend algebra (src/brush/stroke_buffer.rs lines 66-122, src/brush/blend.rs)

`f32` is modelled as `ℝ`.  All comparisons use the classical order on `ℝ`. -/

noncomputable section

/-- Model of `struct Pixel { r, g, b, a : f32 }`, premultiplied-alpha RGBA. -/
@[ext]
structure Pixel where
  r : ℝ
  g : ℝ
  b : ℝ
  a : ℝ

/-- Model of `Pixel::new`. -/
def Pixel.new (r g b a : ℝ) : Pixel := ⟨r, g, b, a⟩

/-- Model of `Pixel::transparent` (= `Pixel::default()`, all fields zero). -/
def Pixel.transparent : Pixel := ⟨0, 0, 0, 0⟩

/-- Model of the `f32 as u8` cast for a value already in `[0, 255]`: truncation. -/
def f32_to_u8 (x : ℝ) : ℕ := ⌊x⌋.toNat

/-- Model of `Pixel::from_rgba_u8`: straight 8-bit RGBA to premultiplied float. -/
def Pixel.from_rgba_u8 (r g b a : ℕ) : Pixel :=
  let a_f := (a : ℝ) / 255
  ⟨((r : ℝ) / 255) * a_f, ((g : ℝ) / 255) * a_f, ((b : ℝ) / 255) * a_f, a_f⟩

/-- Model of `Pixel::to_rgba_u8`: premultiplied float to straight 8-bit RGBA.
`v.clamp(0.0, 1.0)` is modelled as `max 0 (min v 1)`. -/
def Pixel.to_rgba_u8 (p : Pixel) : ℕ × ℕ × ℕ × ℕ :=
  if p.a < 0.001 then (0, 0, 0, 0)
  else
    let inv_a := 1 / p.a
    (f32_to_u8 (max 0 (min (p.r * inv_a) 1) * 255),
     f32_to_u8 (max 0 (min (p.g * inv_a) 1) * 255),
     f32_to_u8 (max 0 (min (p.b * inv_a) 1) * 255),
     f32_to_u8 (max 0 (min p.a 1) * 255))

/-- Model of `Pixel::with_alpha`: rescale premultiplied components to a new alpha. -/
def Pixel.with_alpha (p : Pixel) (new_alpha : ℝ) : Pixel :=
  if p.a < 0.001 then Pixel.transparent
  else
    let scale := new_alpha / p.a
    ⟨p.r * scale, p.g * scale, p.b * scale, new_alpha⟩

/-- A premultiplied pixel: components in `[0,1]` with `r,g,b ≤ a` (spec §3). -/
def Pixel.Premul (p : Pixel) : Prop :=
  0 ≤ p.r ∧ 0 ≤ p.g ∧ 0 ≤ p.b ∧ 0 ≤ p.a ∧
    p.r ≤ p.a ∧ p.g ≤ p.a ∧ p.b ≤ p.a ∧ p.a ≤ 1

/-- Model of `blend_normal_premul`: Porter-Duff over for premultiplied alpha. -/
def blend_normal_premul (src dst : Pixel) : Pixel :=
  let inv_src_a := 1 - src.a
  ⟨src.r + dst.r * inv_src_a, src.g + dst.g * inv_src_a,
   src.b + dst.b * inv_src_a, src.a + dst.a * inv_src_a⟩

/-- Model of `blend_multiply_premul`. -/
def blend_multiply_premul (src dst : Pixel) : Pixel :=
  if src.a < 0.001 then dst
  else if dst.a < 0.001 then src
  else
    let src_r := src.r / src.a
    let src_g := src.g / src.a
    let src_b := src.b / src.a
    let dst_r := dst.r / dst.a
    let dst_g := dst.g / dst.a
    let dst_b := dst.b / dst.a
    let blend_r := src_r * dst_r
    let blend_g := src_g * dst_g
    let blend_b := src_b * dst_b
    let out_a := src.a + dst.a * (1 - src.a)
    if out_a < 0.001 then Pixel.transparent
    else
      let result_r := dst_r + (blend_r - dst_r) * src.a
      let result_g := dst_g + (blend_g - dst_g) * src.a
      let result_b := dst_b + (blend_b - dst_b) * src.a
      ⟨result_r * out_a, result_g * out_a, result_b * out_a, out_a⟩

/-- Model of `blend_screen_premul`. -/
def blend_screen_premul (src dst : Pixel) : Pixel :=
  if src.a < 0.001 then dst
  else if dst.a < 0.001 then src
  else
    let src_r := src.r / src.a
    let src_g := src.g / src.a
    let src_b := src.b / src.a
    let dst_r := dst.r / dst.a
    let dst_g := dst.g / dst.a
    let dst_b := dst.b / dst.a
    let blend_r := 1 - (1 - src_r) * (1 - dst_r)
    let blend_g := 1 - (1 - src_g) * (1 - dst_g)
    let blend_b := 1 - (1 - src_b) * (1 - dst_b)
    let out_a := src.a + dst.a * (1 - src.a)
    if out_a < 0.001 then Pixel.transparent
    else
      let result_r := dst_r + (blend_r - dst_r) * src.a
      let result_g := dst_g + (blend_g - dst_g) * src.a
      let result_b := dst_b + (blend_b - dst_b) * src.a
      ⟨result_r * out_a, result_g * out_a, result_b * out_a, out_a⟩

/-- Per-channel overlay formula from `blend_overlay_premul`. -/
def overlay_channel (s d : ℝ) : ℝ :=
  if d < 0.5 then 2 * s * d else 1 - 2 * (1 - s) * (1 - d)

/-- Model of `blend_overlay_premul`. -/
def blend_overlay_premul (src dst : Pixel) : Pixel :=
  if src.a < 0.001 then dst
  else if dst.a < 0.001 then src
  else
    let src_r := src.r / src.a
    let src_g := src.g / src.a
    let src_b := src.b / src.a
    let dst_r := dst.r / dst.a
    let dst_g := dst.g / dst.a
    let dst_b := dst.b / dst.a
    let blend_r := overlay_channel src_r dst_r
    let blend_g := overlay_channel src_g dst_g
    let blend_b := overlay_channel src_b dst_b
    let out_a := src.a + dst.a * (1 - src.a)
    if out_a < 0.001 then Pixel.transparent
    else
      let result_r := dst_r + (blend_r - dst_r) * src.a
      let result_g := dst_g + (blend_g - dst_g) * src.a
      let result_b := dst_b + (blend_b - dst_b) * src.a
      ⟨result_r * out_a, result_g * out_a, result_b * out_a, out_a⟩

/-- Model of `blend_darken_premul`. -/
def blend_darken_premul (src dst : Pixel) : Pixel :=
  if src.a < 0.001 then dst
  else if dst.a < 0.001 then src
  else
    let src_r := src.r / src.a
    let src_g := src.g / src.a
    let src_b := src.b / src.a
    let dst_r := dst.r / dst.a
    let dst_g := dst.g / dst.a
    let dst_b := dst.b / dst.a
    let blend_r := min src_r dst_r
    let blend_g := min src_g dst_g
    let blend_b := min src_b dst_b
    let out_a := src.a + dst.a * (1 - src.a)
    if out_a < 0.001 then Pixel.transparent
    else
      let result_r := dst_r + (blend_r - dst_r) * src.a
      let result_g := dst_g + (blend_g - dst_g) * src.a
      let result_b := dst_b + (blend_b - dst_b) * src.a
      ⟨result_r * out_a, result_g * out_a, result_b * out_a, out_a⟩

/-- Model of `blend_lighten_premul`. -/
def blend_lighten_premul (src dst : Pixel) : Pixel :=
  if src.a < 0.001 then dst
  else if dst.a < 0.001 then src
  else
    let src_r := src.r / src.a
    let src_g := src.g / src.a
    let src_b := src.b / src.a
    let dst_r := dst.r / dst.a
    let dst_g := dst.g / dst.a
    let dst_b := dst.b / dst.a
    let blend_r := max src_r dst_r
    let blend_g := max src_g dst_g
    let blend_b := max src_b dst_b
    let out_a := src.a + dst.a * (1 - src.a)
    if out_a < 0.001 then Pixel.transparent
    else
      let result_r := dst_r + (blend_r - dst_r) * src.a
      let result_g := dst_g + (blend_g - dst_g) * src.a
      let result_b := dst_b + (blend_b - dst_b) * src.a
      ⟨result_r * out_a, result_g * out_a, result_b * out_a, out_a⟩

/-- Model of `enum BlendFunc`. -/
inductive BlendFunc
  | Normal
  | Multiply
  | Screen
  | Overlay
  | Darken
  | Lighten

/-- Model of `BlendFunc::apply`. -/
def BlendFunc.apply (f : BlendFunc) (src dst : Pixel) : Pixel :=
  match f with
  | BlendFunc.Normal => blend_normal_premul src dst
  | BlendFunc.Multiply => blend_multiply_premul src dst
  | BlendFunc.Screen => blend_screen_premul src dst
  | BlendFunc.Overlay => blend_overlay_premul src dst
  | BlendFunc.Darken => blend_darken_premul src dst
  | BlendFunc.Lighten => blend_lighten_premul src dst

theorem Pixel.premul_a_zero {p : Pixel} (hp : p.Premul) (h : p.a = 0) :
    p = Pixel.transparent := by
  obtain ⟨h1, h2, h3, _, h5, h6, h7, _⟩ := hp
  ext <;> simp only [Pixel.transparent] <;> linarith

/-- C2 counterexample: the non-Normal blends test `src.a < 0.001` before
`dst.a < 0.001`, so a source with tiny but nonzero alpha (here `1/2000`) over a
fully transparent destination returns the destination, not the source.  The
claim `dst.a = 0 ⇒ result = src` therefore fails exactly as stated. -/
theorem blend_dst_zero_eps_counterexample :
    (Pixel.new 0 0 0 (1 / 2000)).Premul ∧ Pixel.transparent.a = 0 ∧
      BlendFunc.Multiply.apply (Pixel.new 0 0 0 (1 / 2000)) Pixel.transparent ≠
        Pixel.new 0 0 0 (1 / 2000) := by
  refine ⟨by norm_num [Pixel.Premul, Pixel.new], by norm_num [Pixel.transparent], ?_⟩
  norm_num [BlendFunc.apply, blend_multiply_premul, Pixel.new, Pixel.transparent,
    Pixel.ext_iff]

/-- C2 (amended): for every blend function and premultiplied pixels `src`,
`dst`: if `src.a = 0` the result equals `dst` exactly; and if `dst.a = 0` and
`src.a` is either `0` or at least `0.001`, the result equals `src` exactly.
(The original claim fails only when `0 < src.a < 0.001` and `dst.a = 0`.) -/
theorem blend_transparent_identities (f : BlendFunc) (src dst : Pixel)
    (hs : src.Premul) (hd : dst.Premul) :
    (src.a = 0 → f.apply src dst = dst) ∧
      (dst.a = 0 → src.a = 0 ∨ 0.001 ≤ src.a → f.apply src dst = src) := by
  constructor
  · intro h
    have hsrc := Pixel.premul_a_zero hs h
    cases f
    · subst hsrc
      ext <;> simp [BlendFunc.apply, blend_normal_premul, Pixel.transparent] <;> ring
    all_goals norm_num [BlendFunc.apply, blend_multiply_premul, blend_screen_premul,
      blend_overlay_premul, blend_darken_premul, blend_lighten_premul, h]
  · intro h h2
    have hdst := Pixel.premul_a_zero hd h
    rcases h2 with h2 | h2
    · have hsrc := Pixel.premul_a_zero hs h2
      subst hsrc; subst hdst
      cases f
      · ext <;> simp [BlendFunc.apply, blend_normal_premul, Pixel.transparent] <;> ring
      all_goals norm_num [BlendFunc.apply, blend_multiply_premul, blend_screen_premul,
        blend_overlay_premul, blend_darken_premul, blend_lighten_premul,
        Pixel.transparent]
    · have hlt : ¬ src.a < 0.001 := not_lt.mpr h2
      cases f
      · subst hdst
        ext <;> simp [BlendFunc.apply, blend_normal_premul, Pixel.transparent] <;> ring
      all_goals
        simp only [BlendFunc.apply, blend_multiply_premul, blend_screen_premul,
          blend_overlay_premul, blend_darken_premul, blend_lighten_premul, h,
          if_neg hlt]
      all_goals rw [if_pos (by norm_num)]

/-- C2 witness: the amended identities instantiated with the Screen blend at a
transparent source and a premultiplied half-transparent destination. -/
theorem blend_transparent_identities_witness :
    ((Pixel.new 0 0 0 0).a = 0 →
        BlendFunc.Screen.apply (Pixel.new 0 0 0 0) (Pixel.new (1/4) (1/4) (1/4) (1/2)) =
          Pixel.new (1/4) (1/4) (1/4) (1/2)) ∧
      ((Pixel.new (1/4) (1/4) (1/4) (1/2)).a = 0 →
        (Pixel.new 0 0 0 0).a = 0 ∨ 0.001 ≤ (Pixel.new 0 0 0 0).a →
        BlendFunc.Screen.apply (Pixel.new 0 0 0 0) (Pixel.new (1/4) (1/4) (1/4) (1/2)) =
          Pixel.new 0 0 0 0) :=
  blend_transparent_identities BlendFunc.Screen (Pixel.new 0 0 0 0)
    (Pixel.new (1/4) (1/4) (1/4) (1/2))
    (by norm_num [Pixel.Premul, Pixel.new])
    (by norm_num [Pixel.Premul, Pixel.new])

/-- C3 counterexample: Multiply with a fully opaque white source is not the
identity on a fully transparent destination — the code returns the source
(opaque white), not the destination. -/
theorem multiply_white_transparent_counterexample :
    blend_multiply_premul (Pixel.new 1 1 1 1) Pixel.transparent ≠ Pixel.transparent := by
  norm_num [blend_multiply_premul, Pixel.new, Pixel.transparent, Pixel.ext_iff]

/-- C3 (amended): on fully opaque destinations (`dst.a = 1`), Multiply with a
fully opaque white source and Screen with a fully opaque black source are both
the identity.  (On non-opaque destinations the output alpha is forced to the
over-composite alpha, so the original claim fails.) -/
theorem multiply_white_screen_black_identity (dst : Pixel) (h : dst.a = 1) :
    blend_multiply_premul (Pixel.new 1 1 1 1) dst = dst ∧
      blend_screen_premul (Pixel.new 0 0 0 1) dst = dst := by
  constructor
  · ext <;> norm_num [blend_multiply_premul, Pixel.new, h]
  · ext <;> norm_num [blend_screen_premul, Pixel.new, h]

/-- C3 witness: the amended identities at a concrete opaque destination. -/
theorem multiply_white_screen_black_identity_witness :
    blend_multiply_premul (Pixel.new 1 1 1 1) (Pixel.new (1/2) (1/3) (1/4) 1) =
        Pixel.new (1/2) (1/3) (1/4) 1 ∧
      blend_screen_premul (Pixel.new 0 0 0 1) (Pixel.new (1/2) (1/3) (1/4) 1) =
        Pixel.new (1/2) (1/3) (1/4) 1 :=
  multiply_white_screen_black_identity (Pixel.new (1/2) (1/3) (1/4) 1) (by norm_num [Pixel.new])

end

/-! ### StrokeBuffer (src/brush/stroke_buffer.rs, lines 124-359)

The pixel store is a `List Pixel` indexed by `y * width + x`; the merge target
`layer_data : &mut [u8]` is a `List ℕ` of bytes.  Rust `for` loops over integer
ranges become `List.foldl` over explicit range lists. -/

noncomputable section

/-- Inclusive integer range `lo..=hi` as a list. -/
def intRangeIncl (lo hi : ℤ) : List ℤ :=
  (List.range (hi + 1 - lo).toNat).map (fun i : ℕ => lo + (i : ℤ))

/-- Exclusive integer range `lo..hi` as a list. -/
def intRangeExcl (lo hi : ℤ) : List ℤ :=
  (List.range (hi - lo).toNat).map (fun i : ℕ => lo + (i : ℤ))

/-- Model of the `f32 as i32` cast: truncation toward zero. -/
def f32_as_i32 (x : ℝ) : ℤ := if 0 ≤ x then ⌊x⌋ else ⌈x⌉

/-- Model of `struct StrokeBuffer`. -/
structure StrokeBuffer where
  width : ℕ
  height : ℕ
  data : List Pixel
  dirty_rect : Rect
  active : Bool

/-- Model of `StrokeBuffer::new`. -/
def StrokeBuffer.new (width height : ℕ) : StrokeBuffer :=
  ⟨width, height, List.replicate (width * height) Pixel.transparent, Rect.empty, false⟩

/-- Model of `StrokeBuffer::clear`: every pixel transparent, dirty rect reset. -/
def StrokeBuffer.clear (buf : StrokeBuffer) : StrokeBuffer :=
  { buf with data := List.replicate buf.data.length Pixel.transparent,
             dirty_rect := Rect.empty }

/-- Model of `StrokeBuffer::begin_stroke`. -/
def StrokeBuffer.begin_stroke (buf : StrokeBuffer) : StrokeBuffer :=
  { buf.clear with active := true }

/-- Model of `StrokeBuffer::get_pixel`: out-of-bounds reads return transparent. -/
def StrokeBuffer.get_pixel (buf : StrokeBuffer) (x y : ℕ) : Pixel :=
  if x ≥ buf.width ∨ y ≥ buf.height then Pixel.transparent
  else buf.data.getD (y * buf.width + x) Pixel.transparent

/-- Model of `StrokeBuffer::blend_pixel`: out-of-bounds writes are no-ops
(`List.set` past the end is a no-op, like `get_mut` returning `None`). -/
def StrokeBuffer.blend_pixel (buf : StrokeBuffer) (x y : ℕ) (src : Pixel) : StrokeBuffer :=
  if x ≥ buf.width ∨ y ≥ buf.height then buf
  else
    let idx := y * buf.width + x
    { buf with
      data := buf.data.set idx
        (blend_normal_premul src (buf.data.getD idx Pixel.transparent)) }

/-- Inner-loop body of `StrokeBuffer::stamp_dab` for one pixel `(px, py)`. -/
def StrokeBuffer.dabStep (cx cy r inner_radius fade_width alpha : ℝ)
    (color : ℝ × ℝ × ℝ) (py : ℤ) (b : StrokeBuffer) (px : ℤ) : StrokeBuffer :=
  if px < 0 ∨ px ≥ (b.width : ℤ) then b
  else
    let dx := (px : ℝ) + 0.5 - cx
    let dy := (py : ℝ) + 0.5 - cy
    let dist := Real.sqrt (dx * dx + dy * dy)
    if dist > r then b
    else
      let dab_alpha :=
        if dist ≤ inner_radius then alpha
        else if fade_width > 0.001 then alpha * (1 - (dist - inner_radius) / fade_width)
        else alpha
      if dab_alpha < 0.001 then b
      else
        let src : Pixel :=
          ⟨color.1 * dab_alpha, color.2.1 * dab_alpha, color.2.2 * dab_alpha, dab_alpha⟩
        b.blend_pixel px.toNat py.toNat src

/-- Outer-loop body of `StrokeBuffer::stamp_dab` for one row `py`. -/
def StrokeBuffer.dabRow (cx cy r inner_radius fade_width alpha : ℝ)
    (color : ℝ × ℝ × ℝ) (left right : ℤ) (b : StrokeBuffer) (py : ℤ) : StrokeBuffer :=
  if py < 0 ∨ py ≥ (b.height : ℤ) then b
  else (intRangeIncl left right).foldl
    (StrokeBuffer.dabStep cx cy r inner_radius fade_width alpha color py) b

/-- Model of `StrokeBuffer::stamp_dab`. -/
def StrokeBuffer.stamp_dab (buf : StrokeBuffer) (cx cy radius : ℝ)
    (color : ℝ × ℝ × ℝ) (alpha hardness : ℝ) : StrokeBuffer :=
  let r := max radius 0.5
  let left := ⌊cx - r⌋
  let top := ⌊cy - r⌋
  let right := ⌈cx + r⌉
  let bottom := ⌈cy + r⌉
  let buf1 := { buf with
    dirty_rect := buf.dirty_rect.expand (f32_as_i32 cx) (f32_as_i32 cy) ⌈r⌉ }
  let inner_radius := r * hardness
  let fade_width := r - inner_radius
  (intRangeIncl top bottom).foldl
    (StrokeBuffer.dabRow cx cy r inner_radius fade_width alpha color left right) buf1

/-- Loop body of `StrokeBuffer::end_stroke` for one pixel `(x, y)` of the
dirty rect: clamp the stroke pixel's alpha to the opacity ceiling, blend it
over the target bytes, write back, skipping near-transparent stroke pixels and
pixel records extending past the end of the target. -/
def StrokeBuffer.mergeStep (buf : StrokeBuffer) (opacity : ℝ) (y : ℤ)
    (ld : List ℕ) (x : ℤ) : List ℕ :=
  let idx := y.toNat * buf.width + x.toNat
  let stroke_pixel := buf.data.getD idx Pixel.transparent
  if stroke_pixel.a < 0.001 then ld
  else
    let clamped_alpha := min stroke_pixel.a opacity
    let clamped_pixel := stroke_pixel.with_alpha clamped_alpha
    let layer_idx := idx * 4
    if layer_idx + 3 ≥ ld.length then ld
    else
      let layer_pixel := Pixel.from_rgba_u8 (ld.getD layer_idx 0) (ld.getD (layer_idx + 1) 0)
        (ld.getD (layer_idx + 2) 0) (ld.getD (layer_idx + 3) 0)
      let result := blend_normal_premul clamped_pixel layer_pixel
      let rgba := result.to_rgba_u8
      ((((ld.set layer_idx rgba.1).set (layer_idx + 1) rgba.2.1).set
        (layer_idx + 2) rgba.2.2.1).set (layer_idx + 3) rgba.2.2.2)

/-- One row of the `end_stroke` composite loop. -/
def StrokeBuffer.mergeRow (buf : StrokeBuffer) (opacity : ℝ) (left right : ℤ)
    (ld : List ℕ) (y : ℤ) : List ℕ :=
  (intRangeExcl left right).foldl (StrokeBuffer.mergeStep buf opacity y) ld

/-- Model of `StrokeBuffer::end_stroke`.  Returns the updated buffer state, the
updated target bytes, and the returned rect. -/
def StrokeBuffer.end_stroke (buf : StrokeBuffer) (layer_data : List ℕ) (opacity : ℝ) :
    StrokeBuffer × List ℕ × Rect :=
  if ¬ buf.active then (buf, layer_data, Rect.empty)
  else
    let buf1 := { buf with active := false }
    let rect := buf.dirty_rect.clamp_to (buf.width : ℤ) (buf.height : ℤ)
    if rect.is_empty then (buf1, layer_data, Rect.empty)
    else
      let ld := (intRangeExcl rect.top rect.bottom).foldl
        (StrokeBuffer.mergeRow buf1 opacity rect.left rect.right) layer_data
      (buf1, ld, rect)

end

/-! ### Helper lemmas about lists and ranges -/

theorem getD_set_ne {α : Type} {l : List α} {i j : ℕ} (a d : α) (h : i ≠ j) :
    (l.set i a).getD j d = l.getD j d := by
  simp [List.getD_eq_getElem?_getD, List.getElem?_set_ne h]

theorem getD_set_self {α : Type} {l : List α} {i : ℕ} (a d : α) (h : i < l.length) :
    (l.set i a).getD i d = a := by
  simp [List.getD_eq_getElem?_getD, List.getElem?_set_self h]

theorem intRangeExcl_mem {lo hi x : ℤ} : x ∈ intRangeExcl lo hi ↔ lo ≤ x ∧ x < hi := by
  simp only [intRangeExcl, List.mem_map, List.mem_range]
  constructor
  · rintro ⟨i, hi', rfl⟩; omega
  · intro h; exact ⟨(x - lo).toNat, by omega, by omega⟩

theorem intRangeIncl_mem {lo hi x : ℤ} : x ∈ intRangeIncl lo hi ↔ lo ≤ x ∧ x ≤ hi := by
  simp only [intRangeIncl, List.mem_map, List.mem_range]
  constructor
  · rintro ⟨i, hi', rfl⟩; omega
  · intro h; exact ⟨(x - lo).toNat, by omega, by omega⟩

theorem intRangeExcl_nodup (lo hi : ℤ) : (intRangeExcl lo hi).Nodup := by
  unfold intRangeExcl
  refine List.Nodup.map ?_ (List.nodup_range _)
  intro a b h
  simp only at h
  omega

theorem intRangeIncl_nodup (lo hi : ℤ) : (intRangeIncl lo hi).Nodup := by
  unfold intRangeIncl
  refine List.Nodup.map ?_ (List.nodup_range _)
  intro a b h
  simp only at h
  omega

theorem foldl_preserves {α ι : Type} (P : α → Prop) (f : α → ι → α) :
    ∀ (l : List ι) (a : α), P a → (∀ b i, i ∈ l → P b → P (f b i)) → P (l.foldl f a)
  | [], _, ha, _ => ha
  | i :: l, a, ha, hstep =>
    foldl_preserves P f l (f a i) (hstep a i (List.mem_cons_self i l) ha)
      (fun b j hj hb => hstep b j (List.mem_cons_of_mem i hj) hb)

theorem set4_getD (ld : List ℕ) (i : ℕ) (a0 a1 a2 a3 : ℕ) (k : ℕ) (hk : k ≤ 3)
    (h : i + 3 < ld.length) :
    ((((ld.set i a0).set (i + 1) a1).set (i + 2) a2).set (i + 3) a3).getD (i + k) 0 =
      [a0, a1, a2, a3].getD k 0 := by
  interval_cases k
  · rw [getD_set_ne _ _ (by omega), getD_set_ne _ _ (by omega), getD_set_ne _ _ (by omega),
      Nat.add_zero]
    exact getD_set_self _ _ (by omega)
  · rw [getD_set_ne _ _ (by omega), getD_set_ne _ _ (by omega)]
    exact getD_set_self _ _ (by simp; omega)
  · rw [getD_set_ne _ _ (by omega)]
    exact getD_set_self _ _ (by simp; omega)
  · exact getD_set_self _ _ (by simp; omega)

/-! ### Locality of the `end_stroke` merge loop

Each `mergeStep` for pixel `(x, y)` reads and writes only the four target
bytes of that pixel's record, so the nested loop acts pointwise on records. -/

theorem mergeStep_length (buf : StrokeBuffer) (o : ℝ) (y : ℤ) (ld : List ℕ) (x : ℤ) :
    (buf.mergeStep o y ld x).length = ld.length := by
  simp only [StrokeBuffer.mergeStep]
  split_ifs <;> simp

theorem mergeStep_untouched (buf : StrokeBuffer) (o : ℝ) (y x : ℤ) (ld : List ℕ) (j : ℕ)
    (h : j < (y.toNat * buf.width + x.toNat) * 4 ∨ (y.toNat * buf.width + x.toNat) * 4 + 3 < j) :
    (buf.mergeStep o y ld x).getD j 0 = ld.getD j 0 := by
  simp only [StrokeBuffer.mergeStep]
  split_ifs <;> try rfl
  rw [getD_set_ne _ _ (by omega), getD_set_ne _ _ (by omega), getD_set_ne _ _ (by omega),
    getD_set_ne _ _ (by omega)]

theorem mergeStep_oob (buf : StrokeBuffer) (o : ℝ) (y x : ℤ) (ld : List ℕ)
    (h : ld.length ≤ (y.toNat * buf.width + x.toNat) * 4 + 3) :
    buf.mergeStep o y ld x = ld := by
  simp only [StrokeBuffer.mergeStep]
  split_ifs <;> rfl

theorem mergeStep_read_eq (buf : StrokeBuffer) (o : ℝ) (y x : ℤ) (ld1 ld2 : List ℕ)
    (hlen : ld1.length = ld2.length)
    (hblk : ∀ k ≤ 3, ld1.getD ((y.toNat * buf.width + x.toNat) * 4 + k) 0 =
      ld2.getD ((y.toNat * buf.width + x.toNat) * 4 + k) 0)
    (k : ℕ) (hk : k ≤ 3) :
    (buf.mergeStep o y ld1 x).getD ((y.toNat * buf.width + x.toNat) * 4 + k) 0 =
      (buf.mergeStep o y ld2 x).getD ((y.toNat * buf.width + x.toNat) * 4 + k) 0 := by
  have e0 := hblk 0 (by omega)
  have e1 := hblk 1 (by omega)
  have e2 := hblk 2 (by omega)
  have e3 := hblk 3 (by omega)
  rw [Nat.add_zero] at e0
  simp only [StrokeBuffer.mergeStep]
  split_ifs with h1 h2 h3
  · exact hblk k hk
  · exact hblk k hk
  · exfalso; omega
  · exfalso; omega
  · rw [set4_getD _ _ _ _ _ _ _ hk (by omega), set4_getD _ _ _ _ _ _ _ hk (by omega),
      e0, e1, e2, e3]

theorem mergeFold_length (buf : StrokeBuffer) (o : ℝ) (y : ℤ) (xs : List ℤ) (ld : List ℕ) :
    (xs.foldl (buf.mergeStep o y) ld).length = ld.length := by
  induction xs generalizing ld with
  | nil => rfl
  | cons x xs ih => rw [List.foldl_cons, ih, mergeStep_length]

theorem mergeFold_untouched (buf : StrokeBuffer) (o : ℝ) (y : ℤ) (xs : List ℤ)
    (ld : List ℕ) (j : ℕ)
    (h : ∀ x ∈ xs, j < (y.toNat * buf.width + x.toNat) * 4 ∨
      (y.toNat * buf.width + x.toNat) * 4 + 3 < j) :
    (xs.foldl (buf.mergeStep o y) ld).getD j 0 = ld.getD j 0 := by
  induction xs generalizing ld with
  | nil => rfl
  | cons x xs ih =>
    rw [List.foldl_cons, ih _ (fun x' hx' => h x' (List.mem_cons_of_mem x hx')),
      mergeStep_untouched _ _ _ _ _ _ (h x (List.mem_cons_self x xs))]

theorem mergeFold_pointwise (buf : StrokeBuffer) (o : ℝ) (y : ℤ) (xs : List ℤ)
    (hnd : xs.Nodup) (hpos : ∀ x ∈ xs, 0 ≤ x) (x0 : ℤ) (hx0 : x0 ∈ xs)
    (k : ℕ) (hk : k ≤ 3) (ld : List ℕ) :
    (xs.foldl (buf.mergeStep o y) ld).getD ((y.toNat * buf.width + x0.toNat) * 4 + k) 0 =
      (buf.mergeStep o y ld x0).getD ((y.toNat * buf.width + x0.toNat) * 4 + k) 0 := by
  induction xs generalizing ld with
  | nil => cases hx0
  | cons x xs ih =>
    rw [List.foldl_cons]
    rcases List.mem_cons.mp hx0 with rfl | hmem
    · apply mergeFold_untouched
      intro x' hx'
      have hne : x' ≠ x0 := fun he => (List.nodup_cons.mp hnd).1 (he ▸ hx')
      have h1 := hpos x' (List.mem_cons_of_mem x0 hx')
      have h2 := hpos x0 (List.mem_cons_self x0 xs)
      omega
    · have hne : x ≠ x0 := fun he => (List.nodup_cons.mp hnd).1 (he ▸ hmem)
      have h1 := hpos x (List.mem_cons_self x xs)
      have h2 := hpos x0 (List.mem_cons_of_mem x hmem)
      rw [ih (List.nodup_cons.mp hnd).2 (fun x' h' => hpos x' (List.mem_cons_of_mem x h'))
        hmem]
      exact mergeStep_read_eq buf o y x0 _ ld (mergeStep_length buf o y ld x)
        (fun k' hk' => mergeStep_untouched buf o y x ld _ (by omega)) k hk

theorem mergeRows_length (buf : StrokeBuffer) (o : ℝ) (l r : ℤ) (ys : List ℤ)
    (ld : List ℕ) :
    (ys.foldl (buf.mergeRow o l r) ld).length = ld.length := by
  induction ys generalizing ld with
  | nil => rfl
  | cons y ys ih =>
    rw [List.foldl_cons, ih, StrokeBuffer.mergeRow, mergeFold_length]

theorem mergeRows_untouched (buf : StrokeBuffer) (o : ℝ) (l r : ℤ) (ys : List ℤ)
    (ld : List ℕ) (j : ℕ)
    (h : ∀ y ∈ ys, ∀ x : ℤ, l ≤ x → x < r →
      j < (y.toNat * buf.width + x.toNat) * 4 ∨ (y.toNat * buf.width + x.toNat) * 4 + 3 < j) :
    (ys.foldl (buf.mergeRow o l r) ld).getD j 0 = ld.getD j 0 := by
  induction ys generalizing ld with
  | nil => rfl
  | cons y ys ih =>
    rw [List.foldl_cons, ih _ (fun y' hy' => h y' (List.mem_cons_of_mem y hy')),
      StrokeBuffer.mergeRow, mergeFold_untouched]
    intro x hx
    have hx' := intRangeExcl_mem.mp hx
    exact h y (List.mem_cons_self y ys) x hx'.1 hx'.2

theorem mergeRows_pointwise (buf : StrokeBuffer) (o : ℝ) (l r : ℤ) (ys : List ℤ)
    (hnd : ys.Nodup) (hpos : ∀ y ∈ ys, 0 ≤ y)
    (hl : 0 ≤ l) (hr : r ≤ (buf.width : ℤ))
    (y0 x0 : ℤ) (hy0 : y0 ∈ ys) (hx0 : l ≤ x0 ∧ x0 < r)
    (k : ℕ) (hk : k ≤ 3) (ld : List ℕ) :
    (ys.foldl (buf.mergeRow o l r) ld).getD ((y0.toNat * buf.width + x0.toNat) * 4 + k) 0 =
      (buf.mergeStep o y0 ld x0).getD ((y0.toNat * buf.width + x0.toNat) * 4 + k) 0 := by
  induction ys generalizing ld with
  | nil => cases hy0
  | cons y ys ih =>
    rw [List.foldl_cons]
    rcases List.mem_cons.mp hy0 with rfl | hmem
    · have hrow : (buf.mergeRow o l r ld y0).getD ((y0.toNat * buf.width + x0.toNat) * 4 + k) 0 =
          (buf.mergeStep o y0 ld x0).getD ((y0.toNat * buf.width + x0.toNat) * 4 + k) 0 := by
        rw [StrokeBuffer.mergeRow]
        exact mergeFold_pointwise buf o y0 _ (intRangeExcl_nodup l r)
          (fun x hx => hl.trans (intRangeExcl_mem.mp hx).1) x0
          (intRangeExcl_mem.mpr hx0) k hk ld
      rw [← hrow]
      apply mergeRows_untouched
      intro y' hy' x hlx hxr
      have hney : y' ≠ y0 := fun he => (List.nodup_cons.mp hnd).1 (he ▸ hy')
      have hp1 := hpos y' (List.mem_cons_of_mem y0 hy')
      have hp2 := hpos y0 (List.mem_cons_self y0 ys)
      have hxw : x.toNat < buf.width := by omega
      have hx0w : x0.toNat < buf.width := by omega
      have : y'.toNat * buf.width + x.toNat ≠ y0.toNat * buf.width + x0.toNat := by
        intro he
        have : y'.toNat = y0.toNat := by
          by_contra hne2
          rcases Nat.lt_or_ge y'.toNat y0.toNat with hlt | hge
          · nlinarith [Nat.succ_le_of_lt hlt]
          · have : y0.toNat < y'.toNat := by omega
            nlinarith [Nat.succ_le_of_lt this]
        omega
      omega
    · have hney : y ≠ y0 := fun he => (List.nodup_cons.mp hnd).1 (he ▸ hmem)
      have hp1 := hpos y (List.mem_cons_self y ys)
      have hp2 := hpos y0 (List.mem_cons_of_mem y hmem)
      rw [ih (List.nodup_cons.mp hnd).2 (fun y' h' => hpos y' (List.mem_cons_of_mem y h'))
        hmem]
      have hblk : ∀ k' ≤ 3, (buf.mergeRow o l r ld y).getD
          ((y0.toNat * buf.width + x0.toNat) * 4 + k') 0 =
          ld.getD ((y0.toNat * buf.width + x0.toNat) * 4 + k') 0 := by
        intro k' hk'
        rw [StrokeBuffer.mergeRow]
        apply mergeFold_untouched
        intro x hx
        have hxm := intRangeExcl_mem.mp hx
        have hxw : x.toNat < buf.width := by omega
        have hx0w : x0.toNat < buf.width := by omega
        have : y.toNat * buf.width + x.toNat ≠ y0.toNat * buf.width + x0.toNat := by
          intro he
          have : y.toNat = y0.toNat := by
            by_contra hne2
            rcases Nat.lt_or_ge y.toNat y0.toNat with hlt | hge
            · nlinarith [Nat.succ_le_of_lt hlt]
            · have : y0.toNat < y.toNat := by omega
              nlinarith [Nat.succ_le_of_lt this]
          omega
        omega
      have hlen : (buf.mergeRow o l r ld y).length = ld.length := by
        rw [StrokeBuffer.mergeRow]; exact mergeFold_length buf o y _ ld
      exact mergeStep_read_eq buf o y0 x0 _ ld hlen hblk k hk

/-! ### The opacity ceiling bound (C1) -/

theorem set4_getD_3 (ld : List ℕ) (i : ℕ) (a0 a1 a2 a3 : ℕ) (h : i + 3 < ld.length) :
    ((((ld.set i a0).set (i + 1) a1).set (i + 2) a2).set (i + 3) a3).getD (i + 3) 0 = a3 :=
  getD_set_self _ _ (by simp; omega)

/-- Core numeric fact: converting `u + v*(1-u)` (over-composite of a clamped
stroke alpha `u ≤ c` over a target alpha `v`) back to a byte cannot exceed
`v*255 + 255*c`. -/
theorem alpha_step_bound (u v c : ℝ) (hu0 : 0 ≤ u) (hu1 : u ≤ 1) (hv : 0 ≤ v) (hc : u ≤ c) :
    (f32_to_u8 (max 0 (min (u + v * (1 - u)) 1) * 255) : ℝ) ≤ v * 255 + 255 * c := by
  simp only [f32_to_u8]
  have hw0 : 0 ≤ u + v * (1 - u) := by nlinarith
  have hX0 : (0:ℝ) ≤ max 0 (min (u + v * (1 - u)) 1) * 255 := by positivity
  have hfl : (0:ℤ) ≤ ⌊max 0 (min (u + v * (1 - u)) 1) * 255⌋ :=
    Int.le_floor.mpr (by exact_mod_cast hX0)
  have hfloor : ((⌊max 0 (min (u + v * (1 - u)) 1) * 255⌋).toNat : ℝ) ≤
      max 0 (min (u + v * (1 - u)) 1) * 255 := by
    have h' := Int.floor_le (max 0 (min (u + v * (1 - u)) 1) * 255)
    have h'' : ((⌊max 0 (min (u + v * (1 - u)) 1) * 255⌋).toNat : ℤ) =
        ⌊max 0 (min (u + v * (1 - u)) 1) * 255⌋ := Int.toNat_of_nonneg hfl
    calc ((⌊max 0 (min (u + v * (1 - u)) 1) * 255⌋).toNat : ℝ)
        = ((⌊max 0 (min (u + v * (1 - u)) 1) * 255⌋ : ℤ) : ℝ) := by exact_mod_cast h''
      _ ≤ _ := h'
  refine hfloor.trans ?_
  have h1 : max 0 (min (u + v * (1 - u)) 1) ≤ u + v * (1 - u) :=
    max_le hw0 (min_le_left _ _)
  have h2 : u + v * (1 - u) ≤ v + c := by
    rcases le_or_lt v 1 with hv1 | hv1
    · nlinarith
    · nlinarith
  nlinarith

theorem mergeStep_alpha_bound (buf : StrokeBuffer) (c : ℝ) (y x : ℤ) (ld : List ℕ)
    (hc0 : 0 ≤ c) (hc1 : c ≤ 1) :
    ((buf.mergeStep c y ld x).getD ((y.toNat * buf.width + x.toNat) * 4 + 3) 0 : ℝ) ≤
      (ld.getD ((y.toNat * buf.width + x.toNat) * 4 + 3) 0 : ℝ) + 255 * c := by
  have hold : (0:ℝ) ≤ (ld.getD ((y.toNat * buf.width + x.toNat) * 4 + 3) 0 : ℝ) := by positivity
  simp only [StrokeBuffer.mergeStep]
  split_ifs with h1 h2
  · linarith
  · linarith
  · rw [set4_getD_3 _ _ _ _ _ _ (by omega)]
    simp only [Pixel.to_rgba_u8, Pixel.with_alpha, if_neg h1, blend_normal_premul,
      Pixel.from_rgba_u8]
    split_ifs with h3
    · simpa using by linarith
    · have hb := alpha_step_bound
        (min (buf.data.getD (y.toNat * buf.width + x.toNat) Pixel.transparent).a c)
        ((ld.getD ((y.toNat * buf.width + x.toNat) * 4 + 3) 0 : ℝ) / 255) c
        (le_min (by linarith [not_lt.mp h1]) hc0)
        ((min_le_right _ _).trans hc1)
        (by positivity)
        (min_le_right _ _)
      rw [div_mul_cancel₀ _ (by norm_num : (255:ℝ) ≠ 0)] at hb
      exact hb

/-- C1: for every stroke-buffer state, target byte list, and opacity ceiling
`c ∈ [0,1]`, `end_stroke(target, c)` never raises the alpha byte of any target
pixel record by more than `c` (in `[0,1]` units): each merged stroke pixel's
alpha is first clamped to `min(alpha, c)` before Normal blending, and the final
8-bit conversion only rounds down. -/
theorem end_stroke_opacity_ceiling (buf : StrokeBuffer) (layer : List ℕ) (c : ℝ)
    (hc0 : 0 ≤ c) (hc1 : c ≤ 1) (p : ℕ) :
    ((buf.end_stroke layer c).2.1.getD (p * 4 + 3) 0 : ℝ) / 255 ≤
      (layer.getD (p * 4 + 3) 0 : ℝ) / 255 + c := by
  rw [StrokeBuffer.end_stroke]
  split_ifs with h1
  swap
  · dsimp only; linarith
  dsimp only
  split_ifs with h2
  · dsimp only; linarith
  · dsimp only
    set buf1 : StrokeBuffer := { buf with active := false } with hbuf1
    set rect := buf.dirty_rect.clamp_to (buf.width : ℤ) (buf.height : ℤ) with hrect
    have hwidth : buf1.width = buf.width := rfl
    have htop : (0:ℤ) ≤ rect.top := by rw [hrect]; exact le_max_right _ _
    have hleft : (0:ℤ) ≤ rect.left := by rw [hrect]; exact le_max_right _ _
    have hright : rect.right ≤ (buf1.width : ℤ) := by rw [hrect, hwidth]; exact min_le_right _ _
    by_cases hex : ∃ y0 x0 : ℤ, y0 ∈ intRangeExcl rect.top rect.bottom ∧
        rect.left ≤ x0 ∧ x0 < rect.right ∧ y0.toNat * buf1.width + x0.toNat = p
    · obtain ⟨y0, x0, hy0, hxl, hxr, hidx⟩ := hex
      subst hidx
      have hpt := mergeRows_pointwise buf1 c rect.left rect.right
        (intRangeExcl rect.top rect.bottom) (intRangeExcl_nodup _ _)
        (fun y hy => htop.trans (intRangeExcl_mem.mp hy).1) hleft hright
        y0 x0 hy0 ⟨hxl, hxr⟩ 3 (by omega) layer
      rw [hpt]
      have hbound := mergeStep_alpha_bound buf1 c y0 x0 layer hc0 hc1
      linarith
    · push_neg at hex
      rw [mergeRows_untouched]
      · linarith
      · intro y hy x hxl hxr
        have := hex y x hy hxl hxr
        omega

/-- C1 witness: a concrete active 1×1 buffer holding one opaque pixel, merged
with ceiling 1/2 into a 4-byte transparent target. -/
theorem end_stroke_opacity_ceiling_witness :
    (((StrokeBuffer.mk 1 1 [Pixel.new 1 1 1 1] (Rect.new 0 0 1 1) true).end_stroke
        [0, 0, 0, 0] (1/2)).2.1.getD (0 * 4 + 3) 0 : ℝ) / 255 ≤
      (([0, 0, 0, 0] : List ℕ).getD (0 * 4 + 3) 0 : ℝ) / 255 + 1/2 :=
  end_stroke_opacity_ceiling (StrokeBuffer.mk 1 1 [Pixel.new 1 1 1 1] (Rect.new 0 0 1 1) true)
    [0, 0, 0, 0] (1/2) (by norm_num) (by norm_num) 0

/-- C9: `end_stroke` never touches bytes outside the supplied target list: the
target's length is preserved, and any pixel record that would extend past the
end of the target (`p*4 + 3 ≥ layer.length`) is skipped entirely, its surviving
bytes left unchanged — so no call can index out of bounds, regardless of the
target's length. -/
theorem end_stroke_bounds_safe (buf : StrokeBuffer) (layer : List ℕ) (c : ℝ)
    (p k : ℕ) (hk : k < 4) (hp : layer.length ≤ p * 4 + 3) :
    (buf.end_stroke layer c).2.1.length = layer.length ∧
      (buf.end_stroke layer c).2.1.getD (p * 4 + k) 0 = layer.getD (p * 4 + k) 0 := by
  rw [StrokeBuffer.end_stroke]
  split_ifs with h1
  swap
  · exact ⟨rfl, rfl⟩
  dsimp only
  split_ifs with h2
  · exact ⟨rfl, rfl⟩
  · dsimp only
    set buf1 : StrokeBuffer := { buf with active := false } with hbuf1
    set rect := buf.dirty_rect.clamp_to (buf.width : ℤ) (buf.height : ℤ) with hrect
    have key := foldl_preserves
      (fun ld => ld.length = layer.length ∧
        ∀ k' < 4, ld.getD (p * 4 + k') 0 = layer.getD (p * 4 + k') 0)
      (StrokeBuffer.mergeRow buf1 c rect.left rect.right)
      (intRangeExcl rect.top rect.bottom)
      layer ⟨rfl, fun _ _ => rfl⟩ ?_
    · exact ⟨key.1, key.2 k hk⟩
    · intro ld y _ hld
      rw [StrokeBuffer.mergeRow]
      refine foldl_preserves
        (fun ld => ld.length = layer.length ∧
          ∀ k' < 4, ld.getD (p * 4 + k') 0 = layer.getD (p * 4 + k') 0)
        (buf1.mergeStep c y) (intRangeExcl rect.left rect.right) ld hld ?_
      intro ld' x _ hld'
      by_cases hone : y.toNat * buf1.width + x.toNat = p
      · have heq : buf1.mergeStep c y ld' x = ld' :=
          mergeStep_oob buf1 c y x ld' (by rw [hone]; omega)
        rw [heq]
        exact hld'
      · constructor
        · rw [mergeStep_length]; exact hld'.1
        · intro k' hk'
          rw [mergeStep_untouched buf1 c y x ld' _ (by omega)]
          exact hld'.2 k' hk'

/-- C9 witness: a 1×1 buffer with a marked dirty pixel merged into a 3-byte
target (shorter than the 4 bytes one pixel record needs) leaves the target
unchanged. -/
theorem end_stroke_bounds_safe_witness :
    ((StrokeBuffer.mk 1 1 [Pixel.new 1 1 1 1] (Rect.new 0 0 1 1) true).end_stroke
        [7, 8, 9] 1).2.1.length = ([7, 8, 9] : List ℕ).length ∧
      ((StrokeBuffer.mk 1 1 [Pixel.new 1 1 1 1] (Rect.new 0 0 1 1) true).end_stroke
        [7, 8, 9] 1).2.1.getD (0 * 4 + 2) 0 = ([7, 8, 9] : List ℕ).getD (0 * 4 + 2) 0 :=
  end_stroke_bounds_safe (StrokeBuffer.mk 1 1 [Pixel.new 1 1 1 1] (Rect.new 0 0 1 1) true)
    [7, 8, 9] 1 0 2 (by norm_num) (by norm_num)

/-! ### PressureCurve (src/input/backend.rs, lines 69-96) -/

noncomputable section

/-- Model of `enum PressureCurve`. -/
inductive PressureCurve
  | Linear
  | Soft
  | Hard
  | SCurve

/-- Model of `PressureCurve::apply`: clamp the raw value to `[0,1]`, then apply
the selected curve.  `pressure.clamp(0.0, 1.0)` is modelled as
`max 0 (min pressure 1)`; `p.sqrt()` as `Real.sqrt`. -/
def PressureCurve.apply (curve : PressureCurve) (pressure : ℝ) : ℝ :=
  let p := max 0 (min pressure 1)
  match curve with
  | PressureCurve.Linear => p
  | PressureCurve.Soft => Real.sqrt p
  | PressureCurve.Hard => p * p
  | PressureCurve.SCurve => p * p * (3 - 2 * p)

/-- C10: for every curve variant and every input `p` (including values outside
`[0,1]`), `apply` first clamps `p` into `[0,1]` (so `apply p` equals `apply` of
the clamped value), returns a value in `[0,1]`, and maps `0` to `0` and `1`
to `1`. -/
theorem pressure_curve_apply_props (curve : PressureCurve) (pressure : ℝ) :
    0 ≤ curve.apply pressure ∧ curve.apply pressure ≤ 1 ∧
      curve.apply pressure = curve.apply (max 0 (min pressure 1)) ∧
      curve.apply 0 = 0 ∧ curve.apply 1 = 1 := by
  have hp0 : 0 ≤ max 0 (min pressure 1) := le_max_left _ _
  have hp1 : max 0 (min pressure 1) ≤ 1 := max_le (by norm_num) (min_le_right _ _)
  have hclamp : max 0 (min (max 0 (min pressure 1)) 1) = max 0 (min pressure 1) := by
    rw [min_eq_left hp1, max_eq_right hp0]
  have h0 : max 0 (min (0:ℝ) 1) = 0 := by norm_num
  have h1 : max 0 (min (1:ℝ) 1) = 1 := by norm_num
  cases curve
  · refine ⟨hp0, hp1, ?_, ?_, ?_⟩ <;>
      simp only [PressureCurve.apply, hclamp, h0, h1]
  · refine ⟨?_, ?_, ?_, ?_, ?_⟩ <;>
      simp only [PressureCurve.apply, hclamp, h0, h1]
    · exact Real.sqrt_nonneg _
    · exact Real.sqrt_le_one.mpr hp1
    · exact Real.sqrt_zero
    · exact Real.sqrt_one
  · refine ⟨?_, ?_, ?_, ?_, ?_⟩ <;>
      simp only [PressureCurve.apply, hclamp, h0, h1]
    · exact mul_nonneg hp0 hp0
    · nlinarith
    · norm_num
    · norm_num
  · refine ⟨?_, ?_, ?_, ?_, ?_⟩ <;>
      simp only [PressureCurve.apply, hclamp, h0, h1]
    · exact mul_nonneg (mul_nonneg hp0 hp0) (by linarith)
    · nlinarith [mul_nonneg (sq_nonneg (1 - max 0 (min pressure 1)))
        (by linarith : (0:ℝ) ≤ 2 * max 0 (min pressure 1) + 1)]
    · norm_num
    · norm_num

end

/-! ### Brush stamper (src/brush/stamper.rs)

Distance-based dab emission.  The `while accumulated_distance >= threshold`
loop is modelled by a well-founded recursion whose measure is `⌈acc⌉₊`, valid
because every iteration subtracts `threshold ≥ 1`. -/

noncomputable section

/-- Model of `RawInputPoint`.  The struct is declared in `src/input/mod.rs`
(not among the provided sources); its fields are fixed by its constructions in
`src/input/pointer_backend.rs` / `wintab_backend.rs` and spec §6. -/
structure RawInputPoint where
  x : ℝ
  y : ℝ
  pressure : ℝ
  tilt_x : ℝ
  tilt_y : ℝ
  timestamp_ms : ℕ

/-- Model of `struct Dab`. -/
structure Dab where
  x : ℝ
  y : ℝ
  size : ℝ
  alpha : ℝ
  angle : ℝ
  pressure : ℝ

/-- Model of `struct PathPoint`. -/
structure PathPoint where
  x : ℝ
  y : ℝ
  pressure : ℝ
  tilt_x : ℝ
  tilt_y : ℝ
deriving Inhabited

/-- Model of `PathPoint::from_raw`. -/
def PathPoint.from_raw (p : RawInputPoint) : PathPoint :=
  ⟨p.x, p.y, p.pressure, p.tilt_x, p.tilt_y⟩

/-- Model of `PathPoint::lerp`. -/
def PathPoint.lerp (self other : PathPoint) (t : ℝ) : PathPoint :=
  ⟨self.x + (other.x - self.x) * t,
   self.y + (other.y - self.y) * t,
   self.pressure + (other.pressure - self.pressure) * t,
   self.tilt_x + (other.tilt_x - self.tilt_x) * t,
   self.tilt_y + (other.tilt_y - self.tilt_y) * t⟩

/-- Model of `PathPoint::distance_to`. -/
def PathPoint.distance_to (self other : PathPoint) : ℝ :=
  Real.sqrt ((other.x - self.x) * (other.x - self.x) +
    (other.y - self.y) * (other.y - self.y))

/-- Model of `struct StamperConfig`.  The source fields `min_size_ratio` and
`min_alpha_ratio` are named `min_size_frac` and `min_alpha_frac` here. -/
structure StamperConfig where
  size : ℝ
  spacing : ℝ
  flow : ℝ
  hardness : ℝ
  pressure_size : Bool
  pressure_alpha : Bool
  min_size_frac : ℝ
  min_alpha_frac : ℝ

/-- Model of `StamperConfig::default`. -/
def StamperConfig.default : StamperConfig :=
  ⟨20, 0.25, 1, 1, true, true, 0, 0⟩

/-- Model of `struct BrushStamper`. -/
structure BrushStamper where
  config : StamperConfig
  accumulated_distance : ℝ
  last_stamp_point : Option PathPoint
  point_history : List PathPoint
  is_stroke_start : Bool

/-- Model of `BrushStamper::new`. -/
def BrushStamper.new (config : StamperConfig) : BrushStamper :=
  ⟨config, 0, none, [], true⟩

/-- Model of `BrushStamper::begin_stroke`. -/
def BrushStamper.begin_stroke (s : BrushStamper) : BrushStamper :=
  { s with accumulated_distance := 0, last_stamp_point := none,
           point_history := [], is_stroke_start := true }

/-- Model of `f32::atan2` (quadrant-correct arctangent); only used for the dab
angle, which no claim inspects. -/
def atan2 (y x : ℝ) : ℝ :=
  if 0 < x then Real.arctan (y / x)
  else if x < 0 ∧ 0 ≤ y then Real.arctan (y / x) + Real.pi
  else if x < 0 ∧ y < 0 then Real.arctan (y / x) - Real.pi
  else if x = 0 ∧ 0 < y then Real.pi / 2
  else if x = 0 ∧ y < 0 then -(Real.pi / 2)
  else 0

/-- Model of `BrushStamper::calculate_size`. -/
def BrushStamper.calculate_size (s : BrushStamper) (pressure : ℝ) : ℝ :=
  if s.config.pressure_size then
    let mn := s.config.size * s.config.min_size_frac
    let range := s.config.size - mn
    mn + range * pressure
  else s.config.size

/-- Model of `BrushStamper::calculate_alpha`. -/
def BrushStamper.calculate_alpha (s : BrushStamper) (pressure : ℝ) : ℝ :=
  let base_alpha := s.config.flow
  if s.config.pressure_alpha then
    let mn := base_alpha * s.config.min_alpha_frac
    let range := base_alpha - mn
    mn + range * pressure
  else base_alpha

/-- Model of `BrushStamper::create_dab`. -/
def BrushStamper.create_dab (s : BrushStamper) (point : PathPoint) : Dab :=
  ⟨point.x, point.y, s.calculate_size point.pressure, s.calculate_alpha point.pressure,
   atan2 point.tilt_y point.tilt_x, point.pressure⟩

/-- Model of `catmull_rom_point`; the interpolated pressure is clamped to
`[0,1]` (`.clamp(0.0, 1.0)` becomes `max 0 (min _ 1)`). -/
def catmull_rom_point (p0 p1 p2 p3 : PathPoint) (t : ℝ) : PathPoint :=
  let t2 := t * t
  let t3 := t2 * t
  let b0 := -0.5 * t3 + t2 - 0.5 * t
  let b1 := 1.5 * t3 - 2.5 * t2 + 1
  let b2 := -1.5 * t3 + 2 * t2 + 0.5 * t
  let b3 := 0.5 * t3 - 0.5 * t2
  ⟨b0 * p0.x + b1 * p1.x + b2 * p2.x + b3 * p3.x,
   b0 * p0.y + b1 * p1.y + b2 * p2.y + b3 * p3.y,
   max 0 (min (b0 * p0.pressure + b1 * p1.pressure + b2 * p2.pressure + b3 * p3.pressure) 1),
   b0 * p0.tilt_x + b1 * p1.tilt_x + b2 * p2.tilt_x + b3 * p3.tilt_x,
   b0 * p0.tilt_y + b1 * p1.tilt_y + b2 * p2.tilt_y + b3 * p3.tilt_y⟩

/-- Model of `BrushStamper::linear_interpolate`.  The result is `none` exactly
when the source aborts: with `step = 0` and `distance > 0` (not caught by the
`distance < step` early return, since `distance ≥ 0`), `distance / step` is
`+∞`, the saturating `as usize` cast yields `usize::MAX`, and
`Vec::with_capacity(usize::MAX)` panics with a capacity overflow.  On every
other input the cast agrees with `⌈distance / step⌉.toNat`: a negative `step`
gives a nonpositive ratio saturating to `0` steps, and `step = 0 = distance`
gives `NaN as usize = 0`, both matching `⌈_⌉.toNat` under Lean's `x / 0 = 0`. -/
def BrushStamper.linear_interpolate (s : BrushStamper) : Option (List PathPoint) :=
  let n := s.point_history.length
  if n < 2 then some []
  else
    let p0 := s.point_history.getD (n - 2) default
    let p1 := s.point_history.getD (n - 1) default
    let distance := p0.distance_to p1
    let step := s.config.size * s.config.spacing * 0.5
    if distance < step then some [p1]
    else if step = 0 ∧ 0 < distance then none
    else
      let steps := ⌈distance / step⌉.toNat
      some ((List.range' 1 steps).map (fun i : ℕ => p0.lerp p1 ((i : ℝ) / (steps : ℝ))))

/-- Model of `BrushStamper::catmull_rom_interpolate`, with the same `none`
branch for the `step = 0`, `distance > 0` capacity-overflow panic as
`linear_interpolate`. -/
def BrushStamper.catmull_rom_interpolate (s : BrushStamper) : Option (List PathPoint) :=
  let n := s.point_history.length
  if n < 4 then s.linear_interpolate
  else
    let p0 := s.point_history.getD (n - 4) default
    let p1 := s.point_history.getD (n - 3) default
    let p2 := s.point_history.getD (n - 2) default
    let p3 := s.point_history.getD (n - 1) default
    let distance := p1.distance_to p2
    let step := s.config.size * s.config.spacing * 0.5
    if distance < step then some [p2]
    else if step = 0 ∧ 0 < distance then none
    else
      let steps := ⌈distance / step⌉.toNat
      some ((List.range' 1 steps).map
        (fun i : ℕ => catmull_rom_point p0 p1 p2 p3 ((i : ℝ) / (steps : ℝ))))

/-- Model of `BrushStamper::interpolate_path` (`none` propagates the
interpolators' capacity-overflow panic). -/
def BrushStamper.interpolate_path (s : BrushStamper) : Option (List PathPoint) :=
  let n := s.point_history.length
  if n < 2 then some s.point_history
  else if n < 4 then s.linear_interpolate
  else s.catmull_rom_interpolate

/-- Model of the `while accumulated_distance >= threshold` emission loop of
`process_point`.  `last` and `distance` are the bindings captured before the
loop in the source and do not change across iterations; the loop threads the
accumulated distance and the emitted dabs.  (The source also writes
`last_stamp_point` inside the loop, but that write is unconditionally
overwritten with `path_point` right after the loop, and nothing in the loop
reads it.)  Terminates because each iteration subtracts `threshold ≥ 1`. -/
def BrushStamper.emitLoop (s : BrushStamper) (last path_point : PathPoint)
    (distance threshold : ℝ) (hthr : 1 ≤ threshold) (acc : ℝ) (dabs : List Dab) :
    List Dab × ℝ :=
  if h : threshold ≤ acc then
    let overshoot := acc - threshold
    let t := if 0.001 < distance then 1 - min (overshoot / distance) 1 else 1
    let dab_point := last.lerp path_point t
    BrushStamper.emitLoop s last path_point distance threshold hthr (acc - threshold)
      (dabs ++ [s.create_dab dab_point])
  else (dabs, acc)
termination_by ⌈acc⌉₊
decreasing_by
  have ha1 : (1:ℝ) ≤ acc := hthr.trans h
  have hc1 : 1 ≤ ⌈acc⌉₊ := Nat.one_le_ceil_iff.mpr (by linarith)
  have hle : ⌈acc - threshold⌉₊ ≤ ⌈acc⌉₊ - 1 := by
    rw [Nat.ceil_le, Nat.cast_sub hc1]
    have := Nat.le_ceil acc
    push_cast
    linarith
  omega

/-- Body of the `for path_point in path_points` processing loop of
`process_point`: accumulate the distance from the last stamp point, compute the
dynamic threshold `max(calculate_size(pressure) * spacing, 1)`, run the
emission loop, then advance the last stamp point to the current path point. -/
def BrushStamper.processPathPoint (st : BrushStamper × List Dab)
    (path_point : PathPoint) : BrushStamper × List Dab :=
  match st.1.last_stamp_point with
  | none => ({ st.1 with last_stamp_point := some path_point }, st.2)
  | some last =>
    let s := st.1
    let distance := last.distance_to path_point
    let acc := s.accumulated_distance + distance
    let current_size := s.calculate_size path_point.pressure
    let threshold := max (current_size * s.config.spacing) 1
    let res := s.emitLoop last path_point distance threshold (le_max_right _ _) acc st.2
    ({ s with accumulated_distance := res.2, last_stamp_point := some path_point }, res.1)

/-- The history update at the top of `process_point`: push the new point, then
drop the oldest if more than 4 are kept. -/
def BrushStamper.pushHistory (s : BrushStamper) (path_point : PathPoint) : BrushStamper :=
  let history := s.point_history ++ [path_point]
  let history := if history.length > 4 then history.drop 1 else history
  { s with point_history := history }

/-- Model of `BrushStamper::process_point`.  Returns `none` when the
interpolation stage panics (capacity overflow at `step = 0` with a moved
sample); the first-point and short-history branches return before interpolating
and so always succeed. -/
def BrushStamper.process_point (s : BrushStamper) (point : RawInputPoint) :
    Option (BrushStamper × List Dab) :=
  let path_point := PathPoint.from_raw point
  let s1 := s.pushHistory path_point
  if s1.is_stroke_start then
    let s2 := { s1 with is_stroke_start := false, last_stamp_point := some path_point }
    some (s2, [s2.create_dab path_point])
  else if s1.point_history.length < 2 then some (s1, [])
  else (s1.interpolate_path).map
    (fun pts => pts.foldl BrushStamper.processPathPoint (s1, []))

/-- Model of `BrushStamper::finish_stroke`: emits nothing and resets state. -/
def BrushStamper.finish_stroke (s : BrushStamper) : BrushStamper × List Dab :=
  (s.begin_stroke, [])

/-- C4: for every stamper state and configuration and every raw input sample,
the first `process_point` call after `begin_stroke()` returns exactly one dab,
located exactly at the sample's coordinates. -/
theorem first_point_one_dab (s : BrushStamper) (p : RawInputPoint) :
    ((s.begin_stroke.process_point p).map (fun r => r.2.map (fun d => (d.x, d.y)))) =
      some [(p.x, p.y)] := by
  simp [BrushStamper.begin_stroke, BrushStamper.process_point, BrushStamper.pushHistory,
    BrushStamper.create_dab, PathPoint.from_raw]

/-! ### Termination bound for the emission loop (C6) -/

/-- Polyline length traversed by `process_point`'s loop: consecutive distances
summed from the optional last stamp point (a `none` is replaced by the next
path point without contributing distance, as in the source's `continue`). -/
def chainLenOpt : Option PathPoint → List PathPoint → ℝ
  | _, [] => 0
  | none, q :: qs => chainLenOpt (some q) qs
  | some l, q :: qs => l.distance_to q + chainLenOpt (some q) qs

theorem chainLenOpt_nonneg (o : Option PathPoint) (qs : List PathPoint) :
    0 ≤ chainLenOpt o qs := by
  induction qs generalizing o with
  | nil => simp [chainLenOpt]
  | cons q qs ih =>
    cases o with
    | none => simpa [chainLenOpt] using ih (some q)
    | some l =>
      have hd : 0 ≤ l.distance_to q := Real.sqrt_nonneg _
      have := ih (some q)
      simp only [chainLenOpt]
      linarith

theorem ceil_sub_step (a t : ℝ) (h1 : 1 ≤ t) (h2 : t ≤ a) : ⌈a - t⌉₊ + 1 ≤ ⌈a⌉₊ := by
  have hc1 : 1 ≤ ⌈a⌉₊ := Nat.one_le_ceil_iff.mpr (by linarith)
  have hle : ⌈a - t⌉₊ ≤ ⌈a⌉₊ - 1 := by
    rw [Nat.ceil_le, Nat.cast_sub hc1]
    have := Nat.le_ceil a
    push_cast
    linarith
  omega

/-- Each emission-loop run produces at most `⌈acc + C⌉₊ - ⌈acc' + C⌉₊` dabs for
any nonnegative slack `C`: one per unit of accumulated distance consumed. -/
theorem emitLoop_count (s : BrushStamper) (last pp : PathPoint)
    (distance threshold : ℝ) (hthr : 1 ≤ threshold) (acc : ℝ) (dabs : List Dab)
    (C : ℝ) (hC : 0 ≤ C) :
    (s.emitLoop last pp distance threshold hthr acc dabs).1.length +
        ⌈(s.emitLoop last pp distance threshold hthr acc dabs).2 + C⌉₊ ≤
      dabs.length + ⌈acc + C⌉₊ := by
  by_cases h : threshold ≤ acc
  · rw [BrushStamper.emitLoop, dif_pos h]
    dsimp only
    refine (emitLoop_count s last pp distance threshold hthr (acc - threshold) _ C hC).trans ?_
    rw [List.length_append, List.length_cons, List.length_nil]
    have hstep : ⌈acc - threshold + C⌉₊ + 1 ≤ ⌈acc + C⌉₊ := by
      have hcs := ceil_sub_step (acc + C) threshold hthr (by linarith)
      have harg : acc + C - threshold = acc - threshold + C := by ring
      rw [harg] at hcs
      exact hcs
    omega
  · rw [BrushStamper.emitLoop, dif_neg h]
termination_by ⌈acc⌉₊
decreasing_by
  have ha1 : (1:ℝ) ≤ acc := hthr.trans h
  have hc1 : 1 ≤ ⌈acc⌉₊ := Nat.one_le_ceil_iff.mpr (by linarith)
  have hle : ⌈acc - threshold⌉₊ ≤ ⌈acc⌉₊ - 1 := by
    rw [Nat.ceil_le, Nat.cast_sub hc1]
    have := Nat.le_ceil acc
    push_cast
    linarith
  omega

/-- Processing a list of path points emits at most `⌈acc₀ + pathLength⌉₊` dabs
beyond those already collected. -/
theorem processFold_count (qs : List PathPoint) (s : BrushStamper) (dabs : List Dab) :
    (qs.foldl BrushStamper.processPathPoint (s, dabs)).2.length ≤
      dabs.length + ⌈s.accumulated_distance + chainLenOpt s.last_stamp_point qs⌉₊ := by
  induction qs generalizing s dabs with
  | nil => simp
  | cons q qs ih =>
    rw [List.foldl_cons]
    cases hl : s.last_stamp_point with
    | none =>
      have hstep : BrushStamper.processPathPoint (s, dabs) q =
          ({ s with last_stamp_point := some q }, dabs) := by
        simp [BrushStamper.processPathPoint, hl]
      rw [hstep]
      have := ih { s with last_stamp_point := some q } dabs
      simpa [chainLenOpt, hl] using this
    | some last =>
      have hstep : BrushStamper.processPathPoint (s, dabs) q =
          ({ s with
              accumulated_distance := (s.emitLoop last q (last.distance_to q)
                (max (s.calculate_size q.pressure * s.config.spacing) 1) (le_max_right _ _)
                (s.accumulated_distance + last.distance_to q) dabs).2,
              last_stamp_point := some q },
            (s.emitLoop last q (last.distance_to q)
              (max (s.calculate_size q.pressure * s.config.spacing) 1) (le_max_right _ _)
              (s.accumulated_distance + last.distance_to q) dabs).1) := by
        simp [BrushStamper.processPathPoint, hl]
      rw [hstep]
      refine (ih _ _).trans ?_
      have hloop := emitLoop_count s last q (last.distance_to q)
        (max (s.calculate_size q.pressure * s.config.spacing) 1) (le_max_right _ _)
        (s.accumulated_distance + last.distance_to q) dabs
        (chainLenOpt (some q) qs) (chainLenOpt_nonneg _ _)
      have harg : s.accumulated_distance + chainLenOpt (some last) (q :: qs) =
          s.accumulated_distance + last.distance_to q + chainLenOpt (some q) qs := by
        simp only [chainLenOpt]; ring
      rw [harg]
      exact hloop

/-- C6 (amended): whenever `process_point` returns — that is, whenever the
interpolation stage does not hit its capacity-overflow panic (`size*spacing =
0` with a moved sample) — it returns a finite dab sequence bounded by the
distance/threshold ratio: at most one initial dab plus the ceiling of the
accumulated distance plus the interpolated path length.  The emission loop
itself is well-founded because its threshold is floored at 1 pixel, but the
claim's "every configuration including size ≤ 0 or spacing ≤ 0" is wrong: at
`step = size*spacing*0.5 = 0` the steps count `(distance/step).ceil() as usize`
saturates to `usize::MAX` and `Vec::with_capacity` panics, so no dab list is
returned at all. -/
theorem process_point_dab_bound (s : BrushStamper) (p : RawInputPoint)
    (r : BrushStamper × List Dab) (hr : s.process_point p = some r) :
    r.2.length ≤
      1 + ⌈s.accumulated_distance + chainLenOpt s.last_stamp_point
          (((s.pushHistory (PathPoint.from_raw p)).interpolate_path).getD [])⌉₊ := by
  rw [BrushStamper.process_point] at hr
  split_ifs at hr with h1 h2
  · simp only [Option.some.injEq] at hr
    subst hr
    simp
  · simp only [Option.some.injEq] at hr
    subst hr
    simp
  · cases hip : (s.pushHistory (PathPoint.from_raw p)).interpolate_path with
    | none =>
      rw [hip] at hr
      simp at hr
    | some pts =>
      rw [hip] at hr
      simp only [Option.map_some', Option.some.injEq] at hr
      subst hr
      rw [Option.getD_some]
      have hfc := processFold_count pts (s.pushHistory (PathPoint.from_raw p)) []
      have hacc : (s.pushHistory (PathPoint.from_raw p)).accumulated_distance =
          s.accumulated_distance := rfl
      have hlast : (s.pushHistory (PathPoint.from_raw p)).last_stamp_point =
          s.last_stamp_point := rfl
      rw [hacc, hlast] at hfc
      refine hfc.trans ?_
      rw [List.length_nil, Nat.zero_add]
      exact Nat.le_add_left _ _

theorem process_point_dab_bound_witness :
    ((BrushStamper.mk StamperConfig.default 0
        (some (PathPoint.from_raw (RawInputPoint.mk 0 0 1 0 0 0)))
        [PathPoint.from_raw (RawInputPoint.mk 0 0 1 0 0 0)] false,
      [(BrushStamper.mk StamperConfig.default 0
          (some (PathPoint.from_raw (RawInputPoint.mk 0 0 1 0 0 0)))
          [PathPoint.from_raw (RawInputPoint.mk 0 0 1 0 0 0)] false).create_dab
        (PathPoint.from_raw (RawInputPoint.mk 0 0 1 0 0 0))]) :
      BrushStamper × List Dab).2.length ≤
      1 + ⌈(BrushStamper.new StamperConfig.default).begin_stroke.accumulated_distance +
        chainLenOpt (BrushStamper.new StamperConfig.default).begin_stroke.last_stamp_point
          ((((BrushStamper.new StamperConfig.default).begin_stroke.pushHistory
              (PathPoint.from_raw (RawInputPoint.mk 0 0 1 0 0 0))).interpolate_path).getD
            [])⌉₊ :=
  process_point_dab_bound (BrushStamper.new StamperConfig.default).begin_stroke
    (RawInputPoint.mk 0 0 1 0 0 0) _ rfl

/-! ### Spacing behavior of close samples (C5) -/

theorem lerp_zero (a b : PathPoint) : a.lerp b 0 = a := by
  simp [PathPoint.lerp]

theorem dist_lerp_lerp (a b : PathPoint) (s t : ℝ) :
    (a.lerp b s).distance_to (a.lerp b t) = |t - s| * a.distance_to b := by
  simp only [PathPoint.lerp, PathPoint.distance_to]
  rw [show (a.x + (b.x - a.x) * t - (a.x + (b.x - a.x) * s)) *
        (a.x + (b.x - a.x) * t - (a.x + (b.x - a.x) * s)) +
        (a.y + (b.y - a.y) * t - (a.y + (b.y - a.y) * s)) *
        (a.y + (b.y - a.y) * t - (a.y + (b.y - a.y) * s)) =
      (t - s) ^ 2 * ((b.x - a.x) * (b.x - a.x) + (b.y - a.y) * (b.y - a.y)) by ring]
  rw [Real.sqrt_mul (sq_nonneg _), Real.sqrt_sq_eq_abs]

theorem chain_lerp_range (a b : PathPoint) (k : ℕ) :
    ∀ (m j : ℕ),
      chainLenOpt (some (a.lerp b ((j : ℝ) / (k : ℝ))))
        ((List.range' (j + 1) m).map (fun i : ℕ => a.lerp b ((i : ℝ) / (k : ℝ)))) =
        (m : ℝ) / (k : ℝ) * a.distance_to b
  | 0, j => by simp [chainLenOpt]
  | m + 1, j => by
    rw [List.range'_succ, List.map_cons]
    simp only [chainLenOpt]
    rw [dist_lerp_lerp, chain_lerp_range a b k m (j + 1)]
    have habs : |((j : ℝ) + 1) / (k : ℝ) - (j : ℝ) / (k : ℝ)| = 1 / (k : ℝ) := by
      rcases Nat.eq_zero_or_pos k with hk | hk
      · subst hk; simp
      · rw [show ((j : ℝ) + 1) / (k : ℝ) - (j : ℝ) / (k : ℝ) = 1 / (k : ℝ) by
          field_simp]
        exact abs_of_nonneg (by positivity)
    push_cast
    rw [habs]
    ring

/-- If the dynamic spacing threshold exceeds the accumulated distance plus the
whole remaining path length, the processing loop emits no dabs at all.  The
`pressure_size = false` hypothesis makes the dab size — and so the threshold —
independent of the interpolated pressure. -/
theorem processFold_no_emit (qs : List PathPoint) (s : BrushStamper) (l : PathPoint)
    (dabs : List Dab) (hlast : s.last_stamp_point = some l)
    (hps : s.config.pressure_size = false)
    (hB : s.accumulated_distance + chainLenOpt (some l) qs < s.config.size * s.config.spacing) :
    (qs.foldl BrushStamper.processPathPoint (s, dabs)).2 = dabs := by
  induction qs generalizing s l dabs with
  | nil => rfl
  | cons q qs ih =>
    rw [List.foldl_cons]
    have hdist0 : 0 ≤ l.distance_to q := Real.sqrt_nonneg _
    have hchain0 : 0 ≤ chainLenOpt (some q) qs := chainLenOpt_nonneg _ _
    have hacc : s.accumulated_distance + l.distance_to q <
        max (s.calculate_size q.pressure * s.config.spacing) 1 := by
      have hsz : s.calculate_size q.pressure = s.config.size := by
        simp [BrushStamper.calculate_size, hps]
      rw [hsz]
      simp only [chainLenOpt] at hB
      have hm := le_max_left (s.config.size * s.config.spacing) (1:ℝ)
      linarith
    have hstep : BrushStamper.processPathPoint (s, dabs) q =
        ({ s with
            accumulated_distance := s.accumulated_distance + l.distance_to q,
            last_stamp_point := some q }, dabs) := by
      simp only [BrushStamper.processPathPoint, hlast]
      rw [BrushStamper.emitLoop, dif_neg (not_le.mpr hacc)]
    rw [hstep]
    refine ih _ q dabs rfl hps ?_
    simp only [chainLenOpt] at hB
    dsimp only
    linarith

theorem process_point_after_begin (s : BrushStamper) (p : RawInputPoint) :
    s.begin_stroke.process_point p =
      some (BrushStamper.mk s.config 0 (some (PathPoint.from_raw p))
          [PathPoint.from_raw p] false,
        [(BrushStamper.mk s.config 0 (some (PathPoint.from_raw p))
            [PathPoint.from_raw p] false).create_dab (PathPoint.from_raw p)]) := rfl

theorem interpolate_path_two (cfg : StamperConfig) (acc0 : ℝ) (lsp : Option PathPoint)
    (pp1 pp2 : PathPoint) (b : Bool) :
    (BrushStamper.mk cfg acc0 lsp [pp1, pp2] b).interpolate_path =
      if pp1.distance_to pp2 < cfg.size * cfg.spacing * 0.5 then some [pp2]
      else if cfg.size * cfg.spacing * 0.5 = 0 ∧ 0 < pp1.distance_to pp2 then none
      else
        some ((List.range' 1 (⌈pp1.distance_to pp2 / (cfg.size * cfg.spacing * 0.5)⌉.toNat)).map
          (fun i : ℕ => pp1.lerp pp2
            ((i : ℝ) / ((⌈pp1.distance_to pp2 / (cfg.size * cfg.spacing * 0.5)⌉.toNat : ℕ) : ℝ)))) := by
  simp [BrushStamper.interpolate_path, BrushStamper.linear_interpolate]

/-- C6 counterexample: the claim covers "every stamper configuration (including
size ≤ 0 or spacing ≤ 0)", but with `spacing = 0` and a second sample one pixel
away the interpolation's steps count `(distance/step).ceil() as usize`
saturates to `usize::MAX` and `Vec::with_capacity` panics with a capacity
overflow before any dab is produced: the second `process_point` call does not
return a dab list at all (while the first call returned its one initial
dab). -/
theorem process_point_spacing_zero_panic_counterexample :
    (((BrushStamper.new (StamperConfig.mk 100 0 1 1 false false 0 0)).begin_stroke.process_point
          (RawInputPoint.mk 0 0 1 0 0 0)).bind
        (fun r => r.1.process_point (RawInputPoint.mk 1 0 1 0 0 0))) = none ∧
    (((BrushStamper.new (StamperConfig.mk 100 0 1 1 false false 0 0)).begin_stroke.process_point
          (RawInputPoint.mk 0 0 1 0 0 0)).map (fun r => r.2.length)) = some 1 := by
  set C := StamperConfig.mk 100 0 1 1 false false 0 0 with hC
  have hfr1 : PathPoint.from_raw (RawInputPoint.mk 0 0 1 0 0 0) =
      PathPoint.mk 0 0 1 0 0 := rfl
  have hfr2 : PathPoint.from_raw (RawInputPoint.mk 1 0 1 0 0 0) =
      PathPoint.mk 1 0 1 0 0 := rfl
  have hdist : (PathPoint.mk 0 0 1 0 0).distance_to (PathPoint.mk 1 0 1 0 0) = 1 := by
    show Real.sqrt (((1:ℝ) - 0) * ((1:ℝ) - 0) + ((0:ℝ) - 0) * ((0:ℝ) - 0)) = 1
    rw [show ((1:ℝ) - 0) * ((1:ℝ) - 0) + ((0:ℝ) - 0) * ((0:ℝ) - 0) = 1 by norm_num]
    exact Real.sqrt_one
  constructor
  · rw [process_point_after_begin, hfr1, Option.some_bind]
    have hcfg : (BrushStamper.new C).config = C := rfl
    rw [hcfg]
    rw [BrushStamper.process_point, hfr2]
    have hpush : (BrushStamper.mk C 0 (some (PathPoint.mk 0 0 1 0 0))
        [PathPoint.mk 0 0 1 0 0] false).pushHistory (PathPoint.mk 1 0 1 0 0) =
        BrushStamper.mk C 0 (some (PathPoint.mk 0 0 1 0 0))
          [PathPoint.mk 0 0 1 0 0, PathPoint.mk 1 0 1 0 0] false := rfl
    rw [hpush]
    rw [if_neg (by norm_num), if_neg (by norm_num)]
    rw [interpolate_path_two, hdist]
    rw [if_neg (by rw [hC]; norm_num), if_pos (by rw [hC]; norm_num)]
    rfl
  · rw [process_point_after_begin]
    rfl

theorem second_point_no_dabs (cfg : StamperConfig) (pp1 : PathPoint) (p2 : RawInputPoint)
    (hps : cfg.pressure_size = false)
    (hd : pp1.distance_to (PathPoint.from_raw p2) < cfg.size * cfg.spacing) :
    ((BrushStamper.mk cfg 0 (some pp1) [pp1] false).process_point p2).map
        (fun r => r.2) = some [] := by
  have hd0 : 0 ≤ pp1.distance_to (PathPoint.from_raw p2) := Real.sqrt_nonneg _
  have hB : (0:ℝ) < cfg.size * cfg.spacing := lt_of_le_of_lt hd0 hd
  rw [BrushStamper.process_point]
  have hpush : (BrushStamper.mk cfg 0 (some pp1) [pp1] false).pushHistory
      (PathPoint.from_raw p2) =
      BrushStamper.mk cfg 0 (some pp1) [pp1, PathPoint.from_raw p2] false := rfl
  rw [hpush]
  set pp2 := PathPoint.from_raw p2 with hpp2
  rw [if_neg (by norm_num), if_neg (by norm_num)]
  rw [interpolate_path_two]
  have hs0 : (0:ℝ) < cfg.size * cfg.spacing * 0.5 := by linarith
  by_cases hcase : pp1.distance_to pp2 < cfg.size * cfg.spacing * 0.5
  · rw [if_pos hcase]
    simp only [Option.map_some', Option.some.injEq]
    refine processFold_no_emit [pp2] _ pp1 [] rfl hps ?_
    show (0:ℝ) + chainLenOpt (some pp1) [pp2] < cfg.size * cfg.spacing
    simp only [chainLenOpt]
    linarith
  · rw [if_neg hcase, if_neg (by rintro ⟨h0, hd2⟩; linarith)]
    simp only [Option.map_some', Option.some.injEq]
    set k : ℕ := ⌈pp1.distance_to pp2 / (cfg.size * cfg.spacing * 0.5)⌉.toNat with hk
    have hdpos : (0:ℝ) < pp1.distance_to pp2 := by
      have := not_lt.mp hcase
      linarith
    have hk1 : 1 ≤ k := by
      rw [hk]
      have : (0:ℤ) < ⌈pp1.distance_to pp2 / (cfg.size * cfg.spacing * 0.5)⌉ :=
        Int.ceil_pos.mpr (by positivity)
      omega
    have hkR : ((k:ℕ):ℝ) ≠ 0 := by
      have : (0:ℕ) < k := hk1
      positivity
    have hchain : chainLenOpt (some pp1)
        ((List.range' 1 k).map (fun i : ℕ => pp1.lerp pp2 ((i : ℝ) / ((k:ℕ):ℝ)))) =
        pp1.distance_to pp2 := by
      have hcl := chain_lerp_range pp1 pp2 k k 0
      rw [Nat.cast_zero, zero_div, lerp_zero] at hcl
      rw [show (0 + 1 : ℕ) = 1 from rfl] at hcl
      rw [hcl, div_self hkR, one_mul]
    refine processFold_no_emit _ _ pp1 [] rfl hps ?_
    show (0:ℝ) + chainLenOpt (some pp1)
        ((List.range' 1 k).map (fun i : ℕ => pp1.lerp pp2 ((i : ℝ) / ((k:ℕ):ℝ)))) <
      cfg.size * cfg.spacing
    rw [hchain]
    linarith

theorem emitLoop_once (s : BrushStamper) (last pp : PathPoint) (distance threshold : ℝ)
    (hthr : 1 ≤ threshold) (acc : ℝ) (dabs : List Dab)
    (h1 : threshold ≤ acc) (h2 : acc - threshold < threshold) :
    (s.emitLoop last pp distance threshold hthr acc dabs).1.length = dabs.length + 1 := by
  rw [BrushStamper.emitLoop, dif_pos h1]
  dsimp only
  rw [BrushStamper.emitLoop, dif_neg (not_le.mpr h2)]
  simp

theorem processPathPoint_one (s : BrushStamper) (l q : PathPoint) (dabs : List Dab)
    (hlast : s.last_stamp_point = some l)
    (h1 : max (s.calculate_size q.pressure * s.config.spacing) 1 ≤
      s.accumulated_distance + l.distance_to q)
    (h2 : s.accumulated_distance + l.distance_to q -
        max (s.calculate_size q.pressure * s.config.spacing) 1 <
      max (s.calculate_size q.pressure * s.config.spacing) 1) :
    (BrushStamper.processPathPoint (s, dabs) q).2.length = dabs.length + 1 := by
  simp only [BrushStamper.processPathPoint, hlast]
  exact emitLoop_once s l q _ _ (le_max_right _ _) _ dabs h1 h2

/-- C5 (amended): for every stamper configuration with `pressure_size = false`
(so the dynamic spacing threshold cannot drop below `size * spacing`), two
samples whose Euclidean distance is strictly less than `size * spacing`,
processed immediately after `begin_stroke()`, yield exactly one dab in total —
the initial dab, none from the second call (and neither call panics). -/
theorem close_points_at_most_one_dab (s : BrushStamper) (p1 p2 : RawInputPoint)
    (hps : s.config.pressure_size = false)
    (hd : (PathPoint.from_raw p1).distance_to (PathPoint.from_raw p2) <
      s.config.size * s.config.spacing) :
    ((s.begin_stroke.process_point p1).bind
        (fun r1 => (r1.1.process_point p2).map
          (fun r2 => r1.2.length + r2.2.length))) = some 1 := by
  rw [process_point_after_begin, Option.some_bind]
  obtain ⟨r2, hr2, hr2e⟩ := Option.map_eq_some'.mp
    (second_point_no_dabs s.config (PathPoint.from_raw p1) p2 hps hd)
  rw [hr2, Option.map_some']
  simp [hr2e]

/-- C5 witness: the amended claim at a concrete configuration with
`pressure_size = false` and two samples 1 pixel apart (threshold 5). -/
theorem close_points_at_most_one_dab_witness :
    (((BrushStamper.new (StamperConfig.mk 20 (1/4) 1 1 false false 0 0)).begin_stroke.process_point
          (RawInputPoint.mk 0 0 1 0 0 0)).bind
        (fun r1 => (r1.1.process_point (RawInputPoint.mk 1 0 1 0 0 0)).map
          (fun r2 => r1.2.length + r2.2.length))) = some 1 :=
  close_points_at_most_one_dab
    (BrushStamper.new (StamperConfig.mk 20 (1/4) 1 1 false false 0 0))
    (RawInputPoint.mk 0 0 1 0 0 0) (RawInputPoint.mk 1 0 1 0 0 0) rfl
    (by norm_num [PathPoint.from_raw, PathPoint.distance_to, BrushStamper.new])

/-- C5 counterexample: the claim as stated quantifies over every stamper
configuration, but with `pressure_size = true`, `min_size_ratio = 0` and zero
pressure the dynamic threshold drops to its 1-pixel floor, so two samples only
1.5 pixels apart — far less than `size*spacing = 50` — produce a second dab on
the second call: two dabs in total. -/
theorem close_points_counterexample :
    (PathPoint.from_raw (RawInputPoint.mk 0 0 0 0 0 0)).distance_to
        (PathPoint.from_raw (RawInputPoint.mk (3/2) 0 0 0 0 0)) <
      (StamperConfig.mk 100 (1/2) 1 1 true false 0 0).size *
        (StamperConfig.mk 100 (1/2) 1 1 true false 0 0).spacing ∧
      (((BrushStamper.new (StamperConfig.mk 100 (1/2) 1 1 true false 0 0)).begin_stroke.process_point
            (RawInputPoint.mk 0 0 0 0 0 0)).bind
          (fun r1 => (r1.1.process_point (RawInputPoint.mk (3/2) 0 0 0 0 0)).map
            (fun r2 => r1.2.length + r2.2.length))) = some 2 := by
  set C := StamperConfig.mk 100 (1/2) 1 1 true false 0 0 with hC
  have hfr1 : PathPoint.from_raw (RawInputPoint.mk 0 0 0 0 0 0) =
      PathPoint.mk 0 0 0 0 0 := rfl
  have hfr2 : PathPoint.from_raw (RawInputPoint.mk (3/2) 0 0 0 0 0) =
      PathPoint.mk (3/2) 0 0 0 0 := rfl
  have hsq : Real.sqrt (((3/2:ℝ) - 0) * ((3/2:ℝ) - 0) + ((0:ℝ) - 0) * ((0:ℝ) - 0)) = 3/2 := by
    rw [show ((3/2:ℝ) - 0) * ((3/2:ℝ) - 0) + ((0:ℝ) - 0) * ((0:ℝ) - 0) = (3/2)^2 by norm_num,
      Real.sqrt_sq (by norm_num : (0:ℝ) ≤ 3/2)]
  have hdist : (PathPoint.mk 0 0 0 0 0).distance_to (PathPoint.mk (3/2) 0 0 0 0) = 3/2 := by
    show Real.sqrt (((3/2:ℝ) - 0) * ((3/2:ℝ) - 0) + ((0:ℝ) - 0) * ((0:ℝ) - 0)) = 3/2
    exact hsq
  constructor
  · rw [hfr1, hfr2, hdist, hC]
    norm_num
  · rw [process_point_after_begin, hfr1]
    simp only [Option.some_bind]
    have hcfg : (BrushStamper.new C).config = C := rfl
    rw [hcfg]
    rw [BrushStamper.process_point, hfr2]
    have hpush : (BrushStamper.mk C 0 (some (PathPoint.mk 0 0 0 0 0))
        [PathPoint.mk 0 0 0 0 0] false).pushHistory (PathPoint.mk (3/2) 0 0 0 0) =
        BrushStamper.mk C 0 (some (PathPoint.mk 0 0 0 0 0))
          [PathPoint.mk 0 0 0 0 0, PathPoint.mk (3/2) 0 0 0 0] false := rfl
    rw [hpush]
    rw [if_neg (by norm_num), if_neg (by norm_num)]
    rw [interpolate_path_two, hdist]
    rw [if_pos (by rw [hC]; norm_num)]
    simp only [Option.map_some', Option.some.injEq]
    rw [List.foldl_cons, List.foldl_nil]
    have hcs : (BrushStamper.mk C 0 (some (PathPoint.mk 0 0 0 0 0))
        [PathPoint.mk 0 0 0 0 0, PathPoint.mk (3/2) 0 0 0 0] false).calculate_size
        (PathPoint.mk (3/2) 0 0 0 0).pressure = 0 := by
      rw [hC]
      norm_num [BrushStamper.calculate_size]
    have hthrval : max ((BrushStamper.mk C 0 (some (PathPoint.mk 0 0 0 0 0))
        [PathPoint.mk 0 0 0 0 0, PathPoint.mk (3/2) 0 0 0 0] false).calculate_size
          (PathPoint.mk (3/2) 0 0 0 0).pressure *
        (BrushStamper.mk C 0 (some (PathPoint.mk 0 0 0 0 0))
          [PathPoint.mk 0 0 0 0 0, PathPoint.mk (3/2) 0 0 0 0] false).config.spacing) 1 =
        (1:ℝ) := by
      rw [hcs, zero_mul]
      exact max_eq_right zero_le_one
    have h1 : max ((BrushStamper.mk C 0 (some (PathPoint.mk 0 0 0 0 0))
        [PathPoint.mk 0 0 0 0 0, PathPoint.mk (3/2) 0 0 0 0] false).calculate_size
          (PathPoint.mk (3/2) 0 0 0 0).pressure *
        (BrushStamper.mk C 0 (some (PathPoint.mk 0 0 0 0 0))
          [PathPoint.mk 0 0 0 0 0, PathPoint.mk (3/2) 0 0 0 0] false).config.spacing) 1 ≤
        (BrushStamper.mk C 0 (some (PathPoint.mk 0 0 0 0 0))
          [PathPoint.mk 0 0 0 0 0, PathPoint.mk (3/2) 0 0 0 0] false).accumulated_distance +
          (PathPoint.mk 0 0 0 0 0).distance_to (PathPoint.mk (3/2) 0 0 0 0) := by
      rw [hthrval, hdist]
      norm_num
    have h2 : (BrushStamper.mk C 0 (some (PathPoint.mk 0 0 0 0 0))
          [PathPoint.mk 0 0 0 0 0, PathPoint.mk (3/2) 0 0 0 0] false).accumulated_distance +
          (PathPoint.mk 0 0 0 0 0).distance_to (PathPoint.mk (3/2) 0 0 0 0) -
        max ((BrushStamper.mk C 0 (some (PathPoint.mk 0 0 0 0 0))
          [PathPoint.mk 0 0 0 0 0, PathPoint.mk (3/2) 0 0 0 0] false).calculate_size
            (PathPoint.mk (3/2) 0 0 0 0).pressure *
          (BrushStamper.mk C 0 (some (PathPoint.mk 0 0 0 0 0))
            [PathPoint.mk 0 0 0 0 0, PathPoint.mk (3/2) 0 0 0 0] false).config.spacing) 1 <
        max ((BrushStamper.mk C 0 (some (PathPoint.mk 0 0 0 0 0))
          [PathPoint.mk 0 0 0 0 0, PathPoint.mk (3/2) 0 0 0 0] false).calculate_size
            (PathPoint.mk (3/2) 0 0 0 0).pressure *
          (BrushStamper.mk C 0 (some (PathPoint.mk 0 0 0 0 0))
            [PathPoint.mk 0 0 0 0 0, PathPoint.mk (3/2) 0 0 0 0] false).config.spacing) 1 := by
      rw [hthrval, hdist]
      norm_num
    rw [processPathPoint_one _ _ _ [] rfl h1 h2]
    simp

end

/-! ### Per-pixel behavior of `stamp_dab` (C7)

Each `dabStep` for pixel `(px, py)` reads and writes only the buffer cell
`py*width + px`, so the nested rasterization loop acts pointwise on cells. -/

noncomputable section

theorem getD_set_split {α : Type} (l : List α) (i : ℕ) (a d : α) :
    (l.set i a).getD i d = if i < l.length then a else l.getD i d := by
  split_ifs with h
  · exact getD_set_self a d h
  · rw [List.set_eq_of_length_le (by omega)]

theorem dabStep_width (cx cy r ir fw al : ℝ) (col : ℝ × ℝ × ℝ) (py : ℤ)
    (b : StrokeBuffer) (px : ℤ) :
    (StrokeBuffer.dabStep cx cy r ir fw al col py b px).width = b.width := by
  simp only [StrokeBuffer.dabStep, StrokeBuffer.blend_pixel]
  split_ifs <;> rfl

theorem dabStep_height (cx cy r ir fw al : ℝ) (col : ℝ × ℝ × ℝ) (py : ℤ)
    (b : StrokeBuffer) (px : ℤ) :
    (StrokeBuffer.dabStep cx cy r ir fw al col py b px).height = b.height := by
  simp only [StrokeBuffer.dabStep, StrokeBuffer.blend_pixel]
  split_ifs <;> rfl

theorem dabStep_data_length (cx cy r ir fw al : ℝ) (col : ℝ × ℝ × ℝ) (py : ℤ)
    (b : StrokeBuffer) (px : ℤ) :
    (StrokeBuffer.dabStep cx cy r ir fw al col py b px).data.length = b.data.length := by
  simp only [StrokeBuffer.dabStep, StrokeBuffer.blend_pixel]
  split_ifs <;> simp

theorem dabStep_untouched (cx cy r ir fw al : ℝ) (col : ℝ × ℝ × ℝ) (py : ℤ)
    (b : StrokeBuffer) (px : ℤ) (idx0 : ℕ)
    (h : 0 ≤ px → px < (b.width : ℤ) → idx0 ≠ py.toNat * b.width + px.toNat) :
    (StrokeBuffer.dabStep cx cy r ir fw al col py b px).data.getD idx0 Pixel.transparent =
      b.data.getD idx0 Pixel.transparent := by
  simp only [StrokeBuffer.dabStep, StrokeBuffer.blend_pixel]
  split_ifs with h1 <;> try rfl
  all_goals
    refine getD_set_ne _ _ ?_
    push_neg at h1
    intro he
    exact h h1.1 h1.2 he.symm

theorem dabStep_self (cx cy r ir fw al : ℝ) (col : ℝ × ℝ × ℝ) (b : StrokeBuffer)
    (x0 y0 : ℕ) (hx : x0 < b.width) (hy : y0 < b.height)
    (hidx : y0 * b.width + x0 < b.data.length) :
    (StrokeBuffer.dabStep cx cy r ir fw al col (y0 : ℤ) b (x0 : ℤ)).data.getD
        (y0 * b.width + x0) Pixel.transparent =
      (let dist := Real.sqrt (((x0:ℝ) + 0.5 - cx) * ((x0:ℝ) + 0.5 - cx) +
          ((y0:ℝ) + 0.5 - cy) * ((y0:ℝ) + 0.5 - cy))
       let dab_alpha := if dist ≤ ir then al
         else if fw > 0.001 then al * (1 - (dist - ir) / fw) else al
       if dist > r ∨ dab_alpha < 0.001 then b.data.getD (y0 * b.width + x0) Pixel.transparent
       else blend_normal_premul
         ⟨col.1 * dab_alpha, col.2.1 * dab_alpha, col.2.2 * dab_alpha, dab_alpha⟩
         (b.data.getD (y0 * b.width + x0) Pixel.transparent)) := by
  simp only [StrokeBuffer.dabStep, StrokeBuffer.blend_pixel, Int.cast_natCast,
    Int.toNat_natCast]
  split_ifs <;>
    first
      | rfl
      | (exact getD_set_self _ _ hidx)
      | omega
      | tauto

theorem dabStep_read_eq (cx cy r ir fw al : ℝ) (col : ℝ × ℝ × ℝ) (py px : ℤ)
    (b1 b2 : StrokeBuffer) (idx0 : ℕ)
    (hw : b1.width = b2.width) (hh : b1.height = b2.height)
    (hlen : b1.data.length = b2.data.length)
    (hval : b1.data.getD idx0 Pixel.transparent = b2.data.getD idx0 Pixel.transparent)
    (hidx : idx0 = py.toNat * b2.width + px.toNat) :
    (StrokeBuffer.dabStep cx cy r ir fw al col py b1 px).data.getD idx0 Pixel.transparent =
      (StrokeBuffer.dabStep cx cy r ir fw al col py b2 px).data.getD idx0
        Pixel.transparent := by
  simp only [StrokeBuffer.dabStep, StrokeBuffer.blend_pixel, hw, hh]
  split_ifs <;>
    first
      | exact hval
      | (subst hidx; dsimp only; rw [getD_set_split, getD_set_split, hlen, hval])

theorem dabFold_width (cx cy r ir fw al : ℝ) (col : ℝ × ℝ × ℝ) (py : ℤ)
    (xs : List ℤ) (b : StrokeBuffer) :
    (xs.foldl (StrokeBuffer.dabStep cx cy r ir fw al col py) b).width = b.width := by
  induction xs generalizing b with
  | nil => rfl
  | cons px xs ih => rw [List.foldl_cons, ih, dabStep_width]

theorem dabFold_height (cx cy r ir fw al : ℝ) (col : ℝ × ℝ × ℝ) (py : ℤ)
    (xs : List ℤ) (b : StrokeBuffer) :
    (xs.foldl (StrokeBuffer.dabStep cx cy r ir fw al col py) b).height = b.height := by
  induction xs generalizing b with
  | nil => rfl
  | cons px xs ih => rw [List.foldl_cons, ih, dabStep_height]

theorem dabFold_data_length (cx cy r ir fw al : ℝ) (col : ℝ × ℝ × ℝ) (py : ℤ)
    (xs : List ℤ) (b : StrokeBuffer) :
    (xs.foldl (StrokeBuffer.dabStep cx cy r ir fw al col py) b).data.length =
      b.data.length := by
  induction xs generalizing b with
  | nil => rfl
  | cons px xs ih => rw [List.foldl_cons, ih, dabStep_data_length]

theorem dabFold_untouched (cx cy r ir fw al : ℝ) (col : ℝ × ℝ × ℝ) (py : ℤ)
    (xs : List ℤ) (b : StrokeBuffer) (idx0 : ℕ)
    (h : ∀ px ∈ xs, 0 ≤ px → px < (b.width : ℤ) → idx0 ≠ py.toNat * b.width + px.toNat) :
    (xs.foldl (StrokeBuffer.dabStep cx cy r ir fw al col py) b).data.getD idx0
        Pixel.transparent = b.data.getD idx0 Pixel.transparent := by
  induction xs generalizing b with
  | nil => rfl
  | cons px xs ih =>
    have hstep : ∀ px' ∈ xs, 0 ≤ px' →
        px' < ((StrokeBuffer.dabStep cx cy r ir fw al col py b px).width : ℤ) →
        idx0 ≠ py.toNat * (StrokeBuffer.dabStep cx cy r ir fw al col py b px).width +
          px'.toNat := by
      rw [dabStep_width]
      exact fun px' hpx' => h px' (List.mem_cons_of_mem px hpx')
    rw [List.foldl_cons, ih _ hstep,
      dabStep_untouched cx cy r ir fw al col py b px idx0 (h px (List.mem_cons_self px xs))]

theorem dabFold_pointwise (cx cy r ir fw al : ℝ) (col : ℝ × ℝ × ℝ) (py : ℤ)
    (xs : List ℤ) (hnd : xs.Nodup) (x0 : ℤ) (hx0 : x0 ∈ xs) (hx0nn : 0 ≤ x0)
    (b : StrokeBuffer) (hxw : x0 < (b.width : ℤ)) :
    (xs.foldl (StrokeBuffer.dabStep cx cy r ir fw al col py) b).data.getD
        (py.toNat * b.width + x0.toNat) Pixel.transparent =
      (StrokeBuffer.dabStep cx cy r ir fw al col py b x0).data.getD
        (py.toNat * b.width + x0.toNat) Pixel.transparent := by
  induction xs generalizing b with
  | nil => cases hx0
  | cons px xs ih =>
    rw [List.foldl_cons]
    rcases List.mem_cons.mp hx0 with rfl | hmem
    · apply dabFold_untouched
      rw [dabStep_width]
      intro px' hpx' h0 hlt
      have hne : px' ≠ x0 := fun he => (List.nodup_cons.mp hnd).1 (he ▸ hpx')
      omega
    · have hne : px ≠ x0 := fun he => (List.nodup_cons.mp hnd).1 (he ▸ hmem)
      have hw := dabStep_width cx cy r ir fw al col py b px
      have hh := dabStep_height cx cy r ir fw al col py b px
      have hlen := dabStep_data_length cx cy r ir fw al col py b px
      have hih := ih (List.nodup_cons.mp hnd).2 hmem
        (StrokeBuffer.dabStep cx cy r ir fw al col py b px) (by rw [hw]; exact hxw)
      rw [hw] at hih
      rw [hih]
      exact dabStep_read_eq cx cy r ir fw al col py x0 _ b _ hw hh hlen
        (dabStep_untouched cx cy r ir fw al col py b px _
          (fun h0 hlt he => hne (by omega)))
        rfl

theorem row_idx_ne (w ya yb xa xb : ℕ) (hxa : xa < w) (hxb : xb < w) (hy : ya ≠ yb) :
    ya * w + xa ≠ yb * w + xb := by
  intro he
  have : ya = yb := by
    by_contra hne
    rcases Nat.lt_or_ge ya yb with hlt | hge
    · nlinarith [Nat.succ_le_of_lt hlt]
    · have hgt : yb < ya := by omega
      nlinarith [Nat.succ_le_of_lt hgt]
  exact hy this

theorem dabRow_width (cx cy r ir fw al : ℝ) (col : ℝ × ℝ × ℝ) (left right : ℤ)
    (b : StrokeBuffer) (py : ℤ) :
    (StrokeBuffer.dabRow cx cy r ir fw al col left right b py).width = b.width := by
  rw [StrokeBuffer.dabRow]
  split_ifs
  · rfl
  · exact dabFold_width cx cy r ir fw al col py _ b

theorem dabRow_height (cx cy r ir fw al : ℝ) (col : ℝ × ℝ × ℝ) (left right : ℤ)
    (b : StrokeBuffer) (py : ℤ) :
    (StrokeBuffer.dabRow cx cy r ir fw al col left right b py).height = b.height := by
  rw [StrokeBuffer.dabRow]
  split_ifs
  · rfl
  · exact dabFold_height cx cy r ir fw al col py _ b

theorem dabRow_data_length (cx cy r ir fw al : ℝ) (col : ℝ × ℝ × ℝ) (left right : ℤ)
    (b : StrokeBuffer) (py : ℤ) :
    (StrokeBuffer.dabRow cx cy r ir fw al col left right b py).data.length =
      b.data.length := by
  rw [StrokeBuffer.dabRow]
  split_ifs
  · rfl
  · exact dabFold_data_length cx cy r ir fw al col py _ b

theorem dabRow_untouched (cx cy r ir fw al : ℝ) (col : ℝ × ℝ × ℝ) (left right : ℤ)
    (b : StrokeBuffer) (py : ℤ) (idx0 : ℕ)
    (h : 0 ≤ py → py < (b.height : ℤ) → ∀ px : ℤ, left ≤ px → px ≤ right → 0 ≤ px →
      px < (b.width : ℤ) → idx0 ≠ py.toNat * b.width + px.toNat) :
    (StrokeBuffer.dabRow cx cy r ir fw al col left right b py).data.getD idx0
        Pixel.transparent = b.data.getD idx0 Pixel.transparent := by
  rw [StrokeBuffer.dabRow]
  split_ifs with hg
  · rfl
  · push_neg at hg
    exact dabFold_untouched cx cy r ir fw al col py _ b idx0
      (fun px hpx h0 hlt =>
        h hg.1 hg.2 px (intRangeIncl_mem.mp hpx).1 (intRangeIncl_mem.mp hpx).2 h0 hlt)

theorem dabRows_untouched (cx cy r ir fw al : ℝ) (col : ℝ × ℝ × ℝ) (left right : ℤ)
    (ys : List ℤ) (b : StrokeBuffer) (idx0 : ℕ)
    (h : ∀ y ∈ ys, 0 ≤ y → y < (b.height : ℤ) → ∀ px : ℤ, left ≤ px → px ≤ right →
      0 ≤ px → px < (b.width : ℤ) → idx0 ≠ y.toNat * b.width + px.toNat) :
    (ys.foldl (StrokeBuffer.dabRow cx cy r ir fw al col left right) b).data.getD idx0
        Pixel.transparent = b.data.getD idx0 Pixel.transparent := by
  induction ys generalizing b with
  | nil => rfl
  | cons y ys ih =>
    have hw := dabRow_width cx cy r ir fw al col left right b y
    have hh := dabRow_height cx cy r ir fw al col left right b y
    have hstep : ∀ y' ∈ ys, 0 ≤ y' →
        y' < ((StrokeBuffer.dabRow cx cy r ir fw al col left right b y).height : ℤ) →
        ∀ px : ℤ, left ≤ px → px ≤ right → 0 ≤ px →
        px < ((StrokeBuffer.dabRow cx cy r ir fw al col left right b y).width : ℤ) →
        idx0 ≠ y'.toNat * (StrokeBuffer.dabRow cx cy r ir fw al col left right b y).width +
          px.toNat := by
      rw [hw, hh]
      exact fun y' hy' => h y' (List.mem_cons_of_mem y hy')
    rw [List.foldl_cons, ih _ hstep,
      dabRow_untouched cx cy r ir fw al col left right b y idx0
        (h y (List.mem_cons_self y ys))]

theorem dabRows_pointwise (cx cy r ir fw al : ℝ) (col : ℝ × ℝ × ℝ) (left right : ℤ)
    (ys : List ℤ) (hnd : ys.Nodup) (y0 : ℤ) (hy0 : y0 ∈ ys) (hy0nn : 0 ≤ y0)
    (x0 : ℤ) (hx0 : x0 ∈ intRangeIncl left right) (hx0nn : 0 ≤ x0)
    (b : StrokeBuffer) (hxw : x0 < (b.width : ℤ)) (hyh : y0 < (b.height : ℤ)) :
    (ys.foldl (StrokeBuffer.dabRow cx cy r ir fw al col left right) b).data.getD
        (y0.toNat * b.width + x0.toNat) Pixel.transparent =
      (StrokeBuffer.dabStep cx cy r ir fw al col y0 b x0).data.getD
        (y0.toNat * b.width + x0.toNat) Pixel.transparent := by
  induction ys generalizing b with
  | nil => cases hy0
  | cons y ys ih =>
    rw [List.foldl_cons]
    rcases List.mem_cons.mp hy0 with rfl | hmem
    · have hrow : (StrokeBuffer.dabRow cx cy r ir fw al col left right b y0).data.getD
          (y0.toNat * b.width + x0.toNat) Pixel.transparent =
          (StrokeBuffer.dabStep cx cy r ir fw al col y0 b x0).data.getD
            (y0.toNat * b.width + x0.toNat) Pixel.transparent := by
        rw [StrokeBuffer.dabRow, if_neg (by omega)]
        exact dabFold_pointwise cx cy r ir fw al col y0 _ (intRangeIncl_nodup left right)
          x0 hx0 hx0nn b hxw
      rw [← hrow]
      apply dabRows_untouched
      intro y' hy' hy'nn hy'h px hpl hpr hpx hplt
      rw [dabRow_width] at hplt ⊢
      have hney : y' ≠ y0 := fun he => (List.nodup_cons.mp hnd).1 (he ▸ hy')
      exact row_idx_ne b.width y0.toNat y'.toNat x0.toNat px.toNat (by omega) (by omega)
        (by omega)
    · have hney : y ≠ y0 := fun he => (List.nodup_cons.mp hnd).1 (he ▸ hmem)
      have hw := dabRow_width cx cy r ir fw al col left right b y
      have hh := dabRow_height cx cy r ir fw al col left right b y
      have hlen := dabRow_data_length cx cy r ir fw al col left right b y
      have hih := ih (List.nodup_cons.mp hnd).2 hmem
        (StrokeBuffer.dabRow cx cy r ir fw al col left right b y)
        (by rw [hw]; exact hxw) (by rw [hh]; exact hyh)
      rw [hw] at hih
      rw [hih]
      refine dabStep_read_eq cx cy r ir fw al col y0 x0 _ b _ hw hh hlen ?_ rfl
      apply dabRow_untouched
      intro hynn hyh px hpl hpr hpx hplt
      exact row_idx_ne b.width y0.toNat y.toNat x0.toNat px.toNat (by omega) (by omega)
        (by omega)

theorem dabRows_width (cx cy r ir fw al : ℝ) (col : ℝ × ℝ × ℝ) (left right : ℤ)
    (ys : List ℤ) (b : StrokeBuffer) :
    (ys.foldl (StrokeBuffer.dabRow cx cy r ir fw al col left right) b).width = b.width := by
  induction ys generalizing b with
  | nil => rfl
  | cons y ys ih => rw [List.foldl_cons, ih, dabRow_width]

theorem dabRows_height (cx cy r ir fw al : ℝ) (col : ℝ × ℝ × ℝ) (left right : ℤ)
    (ys : List ℤ) (b : StrokeBuffer) :
    (ys.foldl (StrokeBuffer.dabRow cx cy r ir fw al col left right) b).height = b.height := by
  induction ys generalizing b with
  | nil => rfl
  | cons y ys ih => rw [List.foldl_cons, ih, dabRow_height]

theorem idx_lt_size (w h x y : ℕ) (hx : x < w) (hy : y < h) : y * w + x < w * h := by
  have h1 : y * w + x < (y + 1) * w := by
    rw [Nat.succ_mul]
    omega
  have h2 : (y + 1) * w ≤ h * w := Nat.mul_le_mul_right w (Nat.succ_le_of_lt hy)
  calc y * w + x < (y + 1) * w := h1
    _ ≤ h * w := h2
    _ = w * h := Nat.mul_comm h w

/-- Per-pixel characterisation of `stamp_dab`, phrased with the radius floored
to `r = max(radius, 0.5)` as the code does. -/
theorem stamp_dab_pixel_eq (buf : StrokeBuffer) (cx cy radius : ℝ) (color : ℝ × ℝ × ℝ)
    (alpha hardness : ℝ) (x0 y0 : ℕ) (hx : x0 < buf.width) (hy : y0 < buf.height)
    (hlen : buf.data.length = buf.width * buf.height) :
    (buf.stamp_dab cx cy radius color alpha hardness).get_pixel x0 y0 =
      (let r := max radius 0.5
       let inner_radius := r * hardness
       let fade_width := r - inner_radius
       let dist := Real.sqrt (((x0:ℝ) + 0.5 - cx) * ((x0:ℝ) + 0.5 - cx) +
         ((y0:ℝ) + 0.5 - cy) * ((y0:ℝ) + 0.5 - cy))
       let dab_alpha := if dist ≤ inner_radius then alpha
         else if fade_width > 0.001 then alpha * (1 - (dist - inner_radius) / fade_width)
         else alpha
       if dist > r ∨ dab_alpha < 0.001 then buf.get_pixel x0 y0
       else blend_normal_premul
         ⟨color.1 * dab_alpha, color.2.1 * dab_alpha, color.2.2 * dab_alpha, dab_alpha⟩
         (buf.get_pixel x0 y0)) := by
  have hget : buf.get_pixel x0 y0 =
      buf.data.getD (y0 * buf.width + x0) Pixel.transparent := by
    rw [StrokeBuffer.get_pixel, if_neg (by omega)]
  have hidx : y0 * buf.width + x0 < buf.data.length := by
    rw [hlen]
    exact idx_lt_size buf.width buf.height x0 y0 hx hy
  simp only [StrokeBuffer.stamp_dab]
  rw [StrokeBuffer.get_pixel]
  rw [if_neg (by rw [dabRows_width, dabRows_height]; dsimp only; omega)]
  rw [dabRows_width]
  dsimp only
  by_cases hdr : Real.sqrt (((x0:ℝ) + 0.5 - cx) * ((x0:ℝ) + 0.5 - cx) +
      ((y0:ℝ) + 0.5 - cy) * ((y0:ℝ) + 0.5 - cy)) ≤ max radius 0.5
  · -- pixel center within the (floored) radius: it lies inside the loop ranges
    have habsx : |(x0:ℝ) + 0.5 - cx| ≤ max radius 0.5 := by
      refine le_trans ?_ hdr
      calc |(x0:ℝ) + 0.5 - cx|
          = Real.sqrt (((x0:ℝ) + 0.5 - cx) * ((x0:ℝ) + 0.5 - cx)) :=
            (Real.sqrt_mul_self_eq_abs _).symm
        _ ≤ _ := Real.sqrt_le_sqrt (by nlinarith [mul_self_nonneg ((y0:ℝ) + 0.5 - cy)])
    have habsy : |(y0:ℝ) + 0.5 - cy| ≤ max radius 0.5 := by
      refine le_trans ?_ hdr
      calc |(y0:ℝ) + 0.5 - cy|
          = Real.sqrt (((y0:ℝ) + 0.5 - cy) * ((y0:ℝ) + 0.5 - cy)) :=
            (Real.sqrt_mul_self_eq_abs _).symm
        _ ≤ _ := Real.sqrt_le_sqrt (by nlinarith [mul_self_nonneg ((x0:ℝ) + 0.5 - cx)])
    obtain ⟨hax1, hax2⟩ := abs_le.mp habsx
    obtain ⟨hay1, hay2⟩ := abs_le.mp habsy
    have hx0m : (x0:ℤ) ∈ intRangeIncl ⌊cx - max radius 0.5⌋ ⌈cx + max radius 0.5⌉ := by
      rw [intRangeIncl_mem]
      constructor
      · have hfl : (⌊cx - max radius 0.5⌋ : ℝ) ≤ cx - max radius 0.5 :=
          Int.floor_le _
        have hlt : (⌊cx - max radius 0.5⌋ : ℝ) < (x0 : ℝ) + 1 := by linarith
        have hlt' : ⌊cx - max radius 0.5⌋ < (x0 : ℤ) + 1 := by exact_mod_cast hlt
        omega
      · have hcl : cx + max radius 0.5 ≤ (⌈cx + max radius 0.5⌉ : ℝ) := Int.le_ceil _
        have hlt : (x0 : ℝ) < (⌈cx + max radius 0.5⌉ : ℝ) := by linarith
        have hlt' : (x0 : ℤ) < ⌈cx + max radius 0.5⌉ := by exact_mod_cast hlt
        omega
    have hy0m : (y0:ℤ) ∈ intRangeIncl ⌊cy - max radius 0.5⌋ ⌈cy + max radius 0.5⌉ := by
      rw [intRangeIncl_mem]
      constructor
      · have hfl : (⌊cy - max radius 0.5⌋ : ℝ) ≤ cy - max radius 0.5 :=
          Int.floor_le _
        have hlt : (⌊cy - max radius 0.5⌋ : ℝ) < (y0 : ℝ) + 1 := by linarith
        have hlt' : ⌊cy - max radius 0.5⌋ < (y0 : ℤ) + 1 := by exact_mod_cast hlt
        omega
      · have hcl : cy + max radius 0.5 ≤ (⌈cy + max radius 0.5⌉ : ℝ) := Int.le_ceil _
        have hlt : (y0 : ℝ) < (⌈cy + max radius 0.5⌉ : ℝ) := by linarith
        have hlt' : (y0 : ℤ) < ⌈cy + max radius 0.5⌉ := by exact_mod_cast hlt
        omega
    have hpw := dabRows_pointwise cx cy (max radius 0.5) (max radius 0.5 * hardness)
      (max radius 0.5 - max radius 0.5 * hardness) alpha color
      ⌊cx - max radius 0.5⌋ ⌈cx + max radius 0.5⌉ _ (intRangeIncl_nodup _ _)
      ((y0:ℤ)) hy0m (by positivity) ((x0:ℤ)) hx0m (by positivity)
      { buf with
          dirty_rect := buf.dirty_rect.expand (f32_as_i32 cx) (f32_as_i32 cy) ⌈max radius 0.5⌉ }
      (by dsimp only; exact_mod_cast hx) (by dsimp only; exact_mod_cast hy)
    simp only [Int.toNat_natCast] at hpw
    rw [hpw]
    have hself := dabStep_self cx cy (max radius 0.5) (max radius 0.5 * hardness)
      (max radius 0.5 - max radius 0.5 * hardness) alpha color
      { buf with
          dirty_rect := buf.dirty_rect.expand (f32_as_i32 cx) (f32_as_i32 cy) ⌈max radius 0.5⌉ }
      x0 y0 hx hy hidx
    dsimp only at hself
    rw [hself, hget]
  · -- pixel center beyond the radius: either the step's distance check skips
    -- it, or the pixel is outside the loop ranges entirely
    rw [if_pos (Or.inl (not_le.mp hdr)), hget]
    by_cases hmem : (x0:ℤ) ∈ intRangeIncl ⌊cx - max radius 0.5⌋ ⌈cx + max radius 0.5⌉ ∧
        (y0:ℤ) ∈ intRangeIncl ⌊cy - max radius 0.5⌋ ⌈cy + max radius 0.5⌉
    · have hpw := dabRows_pointwise cx cy (max radius 0.5) (max radius 0.5 * hardness)
        (max radius 0.5 - max radius 0.5 * hardness) alpha color
        ⌊cx - max radius 0.5⌋ ⌈cx + max radius 0.5⌉ _ (intRangeIncl_nodup _ _)
        ((y0:ℤ)) hmem.2 (by positivity) ((x0:ℤ)) hmem.1 (by positivity)
        { buf with
            dirty_rect := buf.dirty_rect.expand (f32_as_i32 cx) (f32_as_i32 cy) ⌈max radius 0.5⌉ }
        (by dsimp only; exact_mod_cast hx) (by dsimp only; exact_mod_cast hy)
      simp only [Int.toNat_natCast] at hpw
      rw [hpw]
      have hself := dabStep_self cx cy (max radius 0.5) (max radius 0.5 * hardness)
        (max radius 0.5 - max radius 0.5 * hardness) alpha color
        { buf with
            dirty_rect := buf.dirty_rect.expand (f32_as_i32 cx) (f32_as_i32 cy) ⌈max radius 0.5⌉ }
        x0 y0 hx hy hidx
      dsimp only at hself
      rw [hself]
      rw [if_pos (Or.inl (not_le.mp hdr))]
    · rw [dabRows_untouched cx cy (max radius 0.5) (max radius 0.5 * hardness)
        (max radius 0.5 - max radius 0.5 * hardness) alpha color
        ⌊cx - max radius 0.5⌋ ⌈cx + max radius 0.5⌉ _ _ _ ?_]
      · intro y hyy hynn hyh px hpl hpr hp0 hpw'
        dsimp only at hyh hpw' ⊢
        by_cases hyy0 : y.toNat = y0
        · have hyeq : y = (y0:ℤ) := by omega
          subst hyeq
          rcases not_and_or.mp hmem with hnx | hny
          · have hpne : px.toNat ≠ x0 := by
              intro he
              have : px = (x0:ℤ) := by omega
              subst this
              exact hnx (intRangeIncl_mem.mpr ⟨hpl, hpr⟩)
            rw [hyy0]
            omega
          · exact absurd hyy hny
        · refine row_idx_ne buf.width y0 y.toNat x0 px.toNat (by omega) (by omega)
            (by omega)

/-- C7 (amended): for every well-formed buffer and every in-bounds pixel
`(x0, y0)`: with the dab radius floored to `r = max(radius, 0.5)`, a pixel
whose center lies within `r*hardness` of the dab center receives the full dab
alpha; a pixel between `r*hardness` and `r` receives
`alpha * (1 − (dist − r*hardness)/(r − r*hardness))` when the fade width
exceeds `0.001` (and the full alpha otherwise); the resulting source pixel is
Normal-blended over the buffer's current content; and pixels beyond `r`, or
whose computed alpha falls below `0.001`, are left unchanged. (The claim's
formula with the raw `radius` is wrong for `radius < 0.5`.) -/
theorem stamp_dab_pixel (buf : StrokeBuffer) (cx cy radius : ℝ) (color : ℝ × ℝ × ℝ)
    (alpha hardness : ℝ) (x0 y0 : ℕ) (hx : x0 < buf.width) (hy : y0 < buf.height)
    (hlen : buf.data.length = buf.width * buf.height) :
    (buf.stamp_dab cx cy radius color alpha hardness).get_pixel x0 y0 =
      (let r := max radius 0.5
       let inner_radius := r * hardness
       let fade_width := r - inner_radius
       let dist := Real.sqrt (((x0:ℝ) + 0.5 - cx) * ((x0:ℝ) + 0.5 - cx) +
         ((y0:ℝ) + 0.5 - cy) * ((y0:ℝ) + 0.5 - cy))
       let dab_alpha := if dist ≤ inner_radius then alpha
         else if fade_width > 0.001 then alpha * (1 - (dist - inner_radius) / fade_width)
         else alpha
       if dist > r ∨ dab_alpha < 0.001 then buf.get_pixel x0 y0
       else blend_normal_premul
         ⟨color.1 * dab_alpha, color.2.1 * dab_alpha, color.2.2 * dab_alpha, dab_alpha⟩
         (buf.get_pixel x0 y0)) :=
  stamp_dab_pixel_eq buf cx cy radius color alpha hardness x0 y0 hx hy hlen

theorem stamp_dab_pixel_witness :
    ((StrokeBuffer.mk 1 1 [Pixel.new 1 1 1 1] Rect.empty true).stamp_dab 0.5 0.5 1
        (1, 0, 0) 1 1).get_pixel 0 0 =
      (let r := max 1 0.5
       let inner_radius := r * 1
       let fade_width := r - inner_radius
       let dist := Real.sqrt ((((0:ℕ):ℝ) + 0.5 - 0.5) * (((0:ℕ):ℝ) + 0.5 - 0.5) +
         (((0:ℕ):ℝ) + 0.5 - 0.5) * (((0:ℕ):ℝ) + 0.5 - 0.5))
       let dab_alpha := if dist ≤ inner_radius then (1:ℝ)
         else if fade_width > 0.001 then 1 * (1 - (dist - inner_radius) / fade_width)
         else 1
       if dist > r ∨ dab_alpha < 0.001 then
         (StrokeBuffer.mk 1 1 [Pixel.new 1 1 1 1] Rect.empty true).get_pixel 0 0
       else blend_normal_premul
         ⟨(1:ℝ) * dab_alpha, 0 * dab_alpha, 0 * dab_alpha, dab_alpha⟩
         ((StrokeBuffer.mk 1 1 [Pixel.new 1 1 1 1] Rect.empty true).get_pixel 0 0)) :=
  stamp_dab_pixel (StrokeBuffer.mk 1 1 [Pixel.new 1 1 1 1] Rect.empty true) 0.5 0.5 1
    (1, 0, 0) 1 1 0 0 (by decide) (by decide) rfl

/-- Counterexample to the claim's per-pixel formula with the raw radius: a dab
with `radius = 0.4`, `hardness = 0`, `alpha = 1` centered at `(0.8, 0.5)` on a
1×1 transparent buffer leaves pixel `(0,0)` (center distance `0.3`) with alpha
`0.4 = 1 − 0.3/0.5`, because the code floors the radius at `0.5`; the claim's
formula `alpha * (1 − (dist − radius*hardness)/(radius − radius*hardness))`
predicts `0.25 = 1 − 0.3/0.4`. -/
theorem stamp_dab_radius_floor_counterexample :
    ((((StrokeBuffer.mk 1 1 [Pixel.transparent] Rect.empty true).stamp_dab 0.8 0.5 0.4
        (1, 1, 1) 1 0).get_pixel 0 0).a) = 0.4 ∧
    (0.4 : ℝ) ≠ 1 * (1 - (Real.sqrt ((0.5 - 0.8) * (0.5 - 0.8) + (0.5 - 0.5) * (0.5 - 0.5)) -
        0.4 * 0) / (0.4 - 0.4 * 0)) := by
  have hsq : Real.sqrt ((0.5 - 0.8) * (0.5 - 0.8) + (0.5 - 0.5) * (0.5 - 0.5)) = (0.3:ℝ) := by
    rw [show ((0.5 - 0.8) * (0.5 - 0.8) + (0.5 - 0.5) * (0.5 - 0.5) : ℝ) = 0.3 ^ 2 by norm_num]
    exact Real.sqrt_sq (by norm_num)
  have hsqN : Real.sqrt ((((0:ℕ):ℝ) + 0.5 - 0.8) * (((0:ℕ):ℝ) + 0.5 - 0.8) +
      (((0:ℕ):ℝ) + 0.5 - 0.5) * (((0:ℕ):ℝ) + 0.5 - 0.5)) = (0.3:ℝ) := by
    rw [show ((((0:ℕ):ℝ) + 0.5 - 0.8) * (((0:ℕ):ℝ) + 0.5 - 0.8) +
      (((0:ℕ):ℝ) + 0.5 - 0.5) * (((0:ℕ):ℝ) + 0.5 - 0.5)) = (0.3:ℝ) ^ 2 by
        push_cast
        norm_num]
    exact Real.sqrt_sq (by norm_num)
  constructor
  · have h := stamp_dab_pixel_eq (StrokeBuffer.mk 1 1 [Pixel.transparent] Rect.empty true)
      0.8 0.5 0.4 (1, 1, 1) 1 0 0 0 (by decide) (by decide) rfl
    rw [h]
    dsimp only
    rw [hsqN]
    rw [show max (0.4:ℝ) 0.5 = 0.5 from max_eq_right (by norm_num)]
    norm_num [StrokeBuffer.get_pixel, blend_normal_premul, Pixel.transparent,
      List.getD_cons_zero]
  · rw [hsq]
    norm_num
